import Mathlib

/-!
Verification of the Appointment Ledger Engine of the CareDesk receptionist bot.

The definitions below are a shallow embedding of the pure core of
`CareDesk/bot.py`: the normalizers (`_normalize_phone`, `_normalize_date`,
`_normalize_time_bucket`, `_safe_sheet_name`), the matchers
(`_phone_matches`, `_text_matches`, `_date_matches`, `_time_matches`), the
schema reconciler (`_ensure_sheet_headers`) and the two ledger operations
(`log_appointment`, `update_appointment`) over an explicit workbook model.

External effects are captured by an `Env` record: environment variables,
the current time, the permissive `dateutil` fuzzy parser (an external
library, modelled as an oracle function) and the outcome of storage
operations (load / save succeeding or raising).
-/

set_option maxHeartbeats 1000000
set_option maxRecDepth 8192

/-! ## Basic string utilities (Python semantics) -/

/-- Python whitespace characters stripped by `str.strip()` (ASCII subset). -/
def pyWs (c : Char) : Bool :=
  c = ' ' || c = '\t' || c = '\n' || c = '\r' || c = '\x0b' || c = '\x0c'

/-- Strip whitespace from both ends of a character list (`str.strip()`). -/
def stripL (cs : List Char) : List Char :=
  ((cs.dropWhile pyWs).reverse.dropWhile pyWs).reverse

/-- Python `str.strip()`. -/
def pyStrip (s : String) : String := ⟨stripL s.data⟩

/-- Python `str.lower()` (ASCII idealization). -/
def pyLower (s : String) : String := ⟨s.data.map Char.toLower⟩

/-- Check whether `needle` is a prefix of `hay`. -/
def prefixEq : List Char → List Char → Bool
  | [], _ => true
  | _ :: _, [] => false
  | a :: as, b :: bs => a = b && prefixEq as bs

/-- Python substring containment `needle in hay` over character lists. -/
def containsSub (needle : List Char) : List Char → Bool
  | [] => prefixEq needle []
  | c :: t => prefixEq needle (c :: t) || containsSub needle t

/-- Python substring containment `needle in hay` for strings. -/
def strContains (hay needle : String) : Bool := containsSub needle.data hay.data

/-- Python `any(k in text for k in ks)`. -/
def containsAny (text : String) (ks : List String) : Bool :=
  ks.any (fun k => strContains text k)

/-- Python suffix test `s.endswith(suffix)` over character lists. -/
def suffixEq (suffix s : List Char) : Bool := prefixEq suffix.reverse s.reverse

/-- Numeric value of a list of ASCII digit characters (most significant first). -/
def digitsValL (cs : List Char) : Nat :=
  cs.foldl (fun a c => a * 10 + (c.toNat - 48)) 0

/-- The ASCII digit character for `n % 10`-style values below ten. -/
def digitChar : Nat → Char
  | 0 => '0' | 1 => '1' | 2 => '2' | 3 => '3' | 4 => '4'
  | 5 => '5' | 6 => '6' | 7 => '7' | 8 => '8' | _ => '9'

/-- Decimal digit expansion of a natural number, fuel-driven so it reduces. -/
def natDigitsAux : Nat → Nat → List Char
  | 0, _ => []
  | fuel + 1, n =>
    if n < 10 then [digitChar n]
    else natDigitsAux fuel (n / 10) ++ [digitChar (n % 10)]

/-- Decimal digit characters of a natural number. -/
def natDigits (n : Nat) : List Char := natDigitsAux (n + 1) n

/-- Left-pad a character list with zeros to width `k` (Python `%0kd`). -/
def padZeros (k : Nat) (cs : List Char) : List Char :=
  List.replicate (k - cs.length) '0' ++ cs

/-- Format a natural number zero-padded to width `k`. -/
def fmtNum (k n : Nat) : List Char := padZeros k (natDigits n)

/-! ## Normalizer -/

/-- Source `_cell_text` on a string argument: `str(value).strip()`. -/
def cellTextS (s : String) : String := pyStrip s

/-- Source `_normalize_phone`: strip every non-digit character. -/
def normalize_phone (s : String) : String := ⟨s.data.filter Char.isDigit⟩

/-- Characters replaced by `-` in `_safe_sheet_name`. -/
def sheetBadChar (c : Char) : Bool :=
  c = '\\' || c = '/' || c = '*' || c = '?' || c = ':' || c = '[' || c = ']'

/-- Source `_safe_sheet_name`: replace filesystem-hostile characters by `-`,
strip, and truncate to 31 characters; empty input degrades to `""`. -/
def safe_sheet_name (value : String) : String :=
  if value = "" then ""
  else
    let cleaned := stripL (value.data.map (fun c => if sheetBadChar c then '-' else c))
    if cleaned = [] then "" else ⟨cleaned.take 31⟩

/-! ### Date parsing (`datetime.strptime` for the five accepted formats)

CPython `_strptime` compiles `%Y` to exactly four digits, `%m` to one or two
digits with value 1..12, `%d` to one or two digits with value 1..31, and
requires the whole string to be consumed; `datetime` then validates the day
against the month length (with leap years) and requires year at least 1. -/

/-- Whether a year is a leap year (Gregorian rule used by `datetime`). -/
def isLeapYear (y : Nat) : Bool := (y % 4 = 0 && y % 100 ≠ 0) || y % 400 = 0

/-- Number of days of month `m` in year `y`. -/
def monthLen (y m : Nat) : Nat :=
  if m = 2 then (if isLeapYear y then 29 else 28)
  else if m = 1 || m = 3 || m = 5 || m = 7 || m = 8 || m = 10 || m = 12 then 31
  else 30

/-- Validation performed by the `datetime` constructor: year at least 1 and
day at most the month length. -/
def mkYMD (y m d : Nat) : Option (Nat × Nat × Nat) :=
  if 1 ≤ y ∧ d ≤ monthLen y m then some (y, m, d) else none

/-- Parse a `%m`/`%d`-style field: a maximal digit run of length one or two
whose value lies in `1..hi`; returns the value and the rest of the input. -/
def fieldSmall (hi : Nat) (cs : List Char) : Option (Nat × List Char) :=
  let run := cs.takeWhile Char.isDigit
  if run.length = 0 ∨ 2 < run.length then none
  else
    let v := digitsValL run
    if 1 ≤ v ∧ v ≤ hi then some (v, cs.dropWhile Char.isDigit) else none

/-- Parse a `%Y` field: a maximal digit run of length exactly four. -/
def fieldYear (cs : List Char) : Option (Nat × List Char) :=
  let run := cs.takeWhile Char.isDigit
  if run.length = 4 then some (digitsValL run, cs.dropWhile Char.isDigit) else none

/-- Consume one expected literal separator character. -/
def sepLit (c : Char) : List Char → Option (List Char)
  | [] => none
  | x :: rest => if x = c then some rest else none

/-- `datetime.strptime(s, "%Y-%m-%d")`. -/
def parseFmtYMD (cs : List Char) : Option (Nat × Nat × Nat) := do
  let (y, r1) ← fieldYear cs
  let r2 ← sepLit '-' r1
  let (m, r3) ← fieldSmall 12 r2
  let r4 ← sepLit '-' r3
  let (d, r5) ← fieldSmall 31 r4
  if r5 = [] then mkYMD y m d else none

/-- `datetime.strptime(s, "%d<sep>%m<sep>%Y")`. -/
def parseFmtDMY (sep : Char) (cs : List Char) : Option (Nat × Nat × Nat) := do
  let (d, r1) ← fieldSmall 31 cs
  let r2 ← sepLit sep r1
  let (m, r3) ← fieldSmall 12 r2
  let r4 ← sepLit sep r3
  let (y, r5) ← fieldYear r4
  if r5 = [] then mkYMD y m d else none

/-- `datetime.strptime(s, "%m<sep>%d<sep>%Y")`. -/
def parseFmtMDY (sep : Char) (cs : List Char) : Option (Nat × Nat × Nat) := do
  let (m, r1) ← fieldSmall 12 cs
  let r2 ← sepLit sep r1
  let (d, r3) ← fieldSmall 31 r2
  let r4 ← sepLit sep r3
  let (y, r5) ← fieldYear r4
  if r5 = [] then mkYMD y m d else none

/-- The ordered format list of `_normalize_date`:
`%Y-%m-%d`, `%d/%m/%Y`, `%m/%d/%Y`, `%d-%m-%Y`, `%m-%d-%Y`. -/
def tryFormats (s : String) : Option (Nat × Nat × Nat) :=
  (parseFmtYMD s.data).orElse fun _ =>
  (parseFmtDMY '/' s.data).orElse fun _ =>
  (parseFmtMDY '/' s.data).orElse fun _ =>
  (parseFmtDMY '-' s.data).orElse fun _ =>
  parseFmtMDY '-' s.data

/-- `dt.strftime("%Y-%m-%d")`: zero-padded ISO formatting. -/
def fmtDate (y m d : Nat) : String :=
  ⟨fmtNum 4 y ++ '-' :: (fmtNum 2 m ++ '-' :: fmtNum 2 d)⟩

/-! ### The date-shaped regular expression scan

`re.search(r"(\d{4}-\d{1,2}-\d{1,2}|\d{1,2}[slash or dash]\d{1,2}[slash or dash]\d{2,4})", s)`:
leftmost match, first alternative preferred, greedy quantifiers. -/

/-- Take exactly `k` digit characters. -/
def takeKDigits : Nat → List Char → Option (List Char × List Char)
  | 0, cs => some ([], cs)
  | _ + 1, [] => none
  | k + 1, c :: cs =>
    if c.isDigit then (takeKDigits k cs).map (fun p => (c :: p.1, p.2)) else none

/-- Match `\d{1,2}` greedily followed by the literal separator `sep`;
returns the digits and the input after the separator. -/
def digits12Sep (sep : Char) : List Char → Option (List Char × List Char)
  | c1 :: c2 :: c3 :: r =>
    if c1.isDigit && c2.isDigit && c3 = sep then some ([c1, c2], r)
    else if c1.isDigit && c2 = sep then some ([c1], c3 :: r)
    else none
  | [c1, c2] => if c1.isDigit && c2 = sep then some ([c1], []) else none
  | _ => none

/-- Match `\d{1,2}` greedily followed by a separator of class `[slash or dash]`;
returns the digits, the separator matched, and the remaining input. -/
def digits12Cls : List Char → Option (List Char × Char × List Char)
  | c1 :: c2 :: c3 :: r =>
    if c1.isDigit && c2.isDigit && (c3 = '/' || c3 = '-') then some ([c1, c2], c3, r)
    else if c1.isDigit && (c2 = '/' || c2 = '-') then some ([c1], c2, c3 :: r)
    else none
  | [c1, c2] =>
    if c1.isDigit && (c2 = '/' || c2 = '-') then some ([c1], c2, []) else none
  | _ => none

/-- Match a trailing `\d{1,2}` greedily (nothing follows inside the group). -/
def digits12End : List Char → Option (List Char)
  | c1 :: c2 :: _ =>
    if c1.isDigit && c2.isDigit then some [c1, c2]
    else if c1.isDigit then some [c1] else none
  | [c1] => if c1.isDigit then some [c1] else none
  | [] => none

/-- Match a trailing `\d{2,4}` greedily. -/
def digits24End (cs : List Char) : Option (List Char) :=
  match takeKDigits 4 cs with
  | some (ds, _) => some ds
  | none =>
    match takeKDigits 3 cs with
    | some (ds, _) => some ds
    | none =>
      match takeKDigits 2 cs with
      | some (ds, _) => some ds
      | none => none

/-- First regex alternative `\d{4}-\d{1,2}-\d{1,2}` anchored at the head. -/
def dateAltA (cs : List Char) : Option (List Char) := do
  let (a, r0) ← takeKDigits 4 cs
  let r1 ← sepLit '-' r0
  let (b, r2) ← digits12Sep '-' r1
  let c ← digits12End r2
  pure (a ++ '-' :: (b ++ '-' :: c))

/-- Second regex alternative `\d{1,2}[slash or dash]\d{1,2}[slash or dash]\d{2,4}` at the head. -/
def dateAltB (cs : List Char) : Option (List Char) := do
  let (a, s1, r1) ← digits12Cls cs
  let (b, s2, r2) ← digits12Cls r1
  let c ← digits24End r2
  pure (a ++ s1 :: (b ++ s2 :: c))

/-- Try both alternatives at the current position, first one preferred. -/
def dateShapedAt (cs : List Char) : Option (List Char) :=
  (dateAltA cs).orElse fun _ => dateAltB cs

/-- Leftmost search of the date-shaped pattern (`re.search`). -/
def regexDateSearch : List Char → Option (List Char)
  | [] => none
  | c :: rest =>
    match dateShapedAt (c :: rest) with
    | some mres => some mres
    | none => regexDateSearch rest

/-! ### Environment and `_normalize_date` -/

/-- Storage-layer failure kinds distinguished by the operation handlers. -/
inductive StorageErr where
  | permissionError
  | otherError
  deriving DecidableEq, Repr

/-- External effects of the engine: environment variables, current time, the
`dateutil` fuzzy parser oracle, and injected storage-operation outcomes. -/
structure Env where
  path : String
  sheetMode : String
  sheetNameOverride : String
  nowDate : String
  nowStamp : String
  dateutilParse : String → Option (Nat × Nat × Nat)
  loadErr : Option StorageErr
  saveErr : Option StorageErr

/-- Source `_normalize_date`: try the five formats on the trimmed input, then
on a date-shaped substring, then fall back to the permissive `dateutil`
parser, and finally return the trimmed input unchanged. -/
def normalize_date (env : Env) (value : String) : String :=
  if value = "" then ""
  else
    let cleaned := pyStrip value
    match tryFormats cleaned with
    | some (y, m, d) => fmtDate y m d
    | none =>
      let viaRegex : Option (Nat × Nat × Nat) :=
        match regexDateSearch cleaned.data with
        | some cand => tryFormats ⟨cand⟩
        | none => none
      match viaRegex with
      | some (y, m, d) => fmtDate y m d
      | none =>
        match env.dateutilParse cleaned with
        | some (y, m, d) => fmtDate y m d
        | none => cleaned

/-! ### `_normalize_time_bucket` -/

/-- Match of `(\d{1,2})(?::(\d{2}))?\s*(am|pm)?` anchored at the head:
hour digits (greedy, one or two), optionally a colon with exactly two minute
digits, optional whitespace, optionally `am`/`pm`. -/
def timeSearchAt : List Char → Option (Nat × Nat × Option String)
  | [] => none
  | c :: rest =>
    if c.isDigit then
      let hr :=
        match rest with
        | c2 :: r2 => if c2.isDigit then ([c, c2], r2) else ([c], rest)
        | [] => ([c], ([] : List Char))
      let mr :=
        match hr.2 with
        | ':' :: d1 :: d2 :: r3 =>
          if d1.isDigit && d2.isDigit then (digitsValL [d1, d2], r3) else (0, hr.2)
        | _ => (0, hr.2)
      let r4 := mr.2.dropWhile pyWs
      let ampm : Option String :=
        match r4 with
        | 'a' :: 'm' :: _ => some "am"
        | 'p' :: 'm' :: _ => some "pm"
        | _ => none
      some (digitsValL hr.1, mr.1, ampm)
    else none

/-- Leftmost `re.search` of the hour pattern. -/
def timeSearch : List Char → Option (Nat × Nat × Option String)
  | [] => none
  | c :: rest =>
    match timeSearchAt (c :: rest) with
    | some x => some x
    | none => timeSearch rest

/-- The 24-hour conversion applied to the matched hour. -/
def hour24 (h : Nat) (ampm : Option String) : Nat :=
  if ampm = some "pm" ∧ h < 12 then h + 12
  else if ampm = some "am" ∧ h = 12 then 0
  else h

/-- Source `_normalize_time_bucket`: keyword buckets first, then the numeric
hour pattern mapped through 24-hour ranges, otherwise the trimmed
lower-cased text (or `HH:MM` when an hour was found outside every range). -/
def normalize_time_bucket (value : String) : String :=
  if value = "" then ""
  else
    let text := pyLower (cellTextS value)
    if containsAny text ["morning", "am"] then "morning"
    else if containsAny text ["afternoon", "noon", "pm"] then "afternoon"
    else if containsAny text ["evening", "night"] then "evening"
    else
      match timeSearch text.data with
      | none => text
      | some (h, minute, ampm) =>
        let hour := hour24 h ampm
        if 5 ≤ hour ∧ hour ≤ 11 then "morning"
        else if 12 ≤ hour ∧ hour ≤ 16 then "afternoon"
        else if 17 ≤ hour ∧ hour ≤ 22 then "evening"
        else ⟨fmtNum 2 hour ++ ':' :: fmtNum 2 minute⟩

/-! ## Matcher -/

/-- Source `_phone_matches`: empty search always matches; otherwise exact
equality or a suffix relationship where the suffix side has length ≥ 7. -/
def phone_matches (search candidate : String) : Bool :=
  if search = "" then true
  else if candidate = "" then false
  else if search = candidate then true
  else if 7 ≤ search.length && suffixEq search.data candidate.data then true
  else if 7 ≤ candidate.length && suffixEq candidate.data search.data then true
  else false

/-- Source `_text_matches`: case-insensitive substring containment in either
direction after trimming. -/
def text_matches (search candidate : String) : Bool :=
  if search = "" then true
  else if candidate = "" then false
  else
    let sn := pyLower (pyStrip search)
    let cn := pyLower (pyStrip candidate)
    strContains cn sn || strContains sn cn

/-- Source `_date_matches`: normalized-date equality or substring containment
of the normalized strings in either direction. -/
def date_matches (env : Env) (search candidate : String) : Bool :=
  if search = "" then true
  else if candidate = "" then false
  else
    let sNorm := pyLower (pyStrip (normalize_date env (cellTextS search)))
    let cNorm := pyLower (pyStrip (normalize_date env (cellTextS candidate)))
    if sNorm = cNorm then true
    else if strContains cNorm sNorm || strContains sNorm cNorm then true
    else false

/-- Source `_time_matches`: bucket equality via `_normalize_time_bucket`, or
raw lower-cased substring containment fallback. -/
def time_matches (search candidate : String) : Bool :=
  if search = "" then true
  else if candidate = "" then false
  else
    let sRaw := pyLower (cellTextS search)
    let cRaw := pyLower (cellTextS candidate)
    if normalize_time_bucket sRaw = normalize_time_bucket cRaw then true
    else if strContains cRaw sRaw || strContains sRaw cRaw then true
    else false

/-! ## Workbook model

A worksheet is a 1-indexed grid of optional string cells (row-major, ragged);
a workbook is an ordered list of named worksheets, mirroring `openpyxl`'s
`max_row`/`max_column`/`cell`/`append`/`delete_rows` interface on the tiny
fragment the source uses. -/

/-- A spreadsheet cell value (`None` or a string). -/
abbrev Cell := Option String

/-- A worksheet: name plus a ragged row-major grid of cells. -/
structure Sheet where
  name : String
  cells : List (List Cell)
  deriving DecidableEq, Repr

/-- Pad a list on the right with a default element up to length `n`. -/
def padTo {α : Type} (l : List α) (n : Nat) (d : α) : List α :=
  l ++ List.replicate (n - l.length) d

/-- `openpyxl` `max_row` (at least 1, even for an empty sheet). -/
def Sheet.maxRow (s : Sheet) : Nat := max 1 s.cells.length

/-- `openpyxl` `max_column` (at least 1). -/
def Sheet.maxCol (s : Sheet) : Nat :=
  max 1 (s.cells.foldl (fun a r => max a r.length) 0)

/-- Read the cell at 1-indexed row `r`, column `c` (missing cells are `None`). -/
def Sheet.cellVal (s : Sheet) (r c : Nat) : Cell :=
  (s.cells.getD (r - 1) []).getD (c - 1) none

/-- Write the cell at 1-indexed row `r`, column `c`, growing the grid. -/
def Sheet.setCell (s : Sheet) (r c : Nat) (v : Cell) : Sheet :=
  let rows := padTo s.cells r []
  let row := padTo (rows.getD (r - 1) []) c none
  { s with cells := rows.set (r - 1) (row.set (c - 1) v) }

/-- `openpyxl` `append`: add a row after the last present row. -/
def Sheet.appendRow (s : Sheet) (row : List Cell) : Sheet :=
  { s with cells := s.cells ++ [row] }

/-- `openpyxl` `delete_rows(idx, 1)`: drop the 1-indexed row `idx`. -/
def Sheet.deleteRow (s : Sheet) (idx : Nat) : Sheet :=
  { s with cells := s.cells.take (idx - 1) ++ s.cells.drop idx }

/-- A workbook: the ordered worksheets of the ledger file. -/
structure Workbook where
  sheets : List Sheet
  deriving DecidableEq, Repr

/-- `workbook.sheetnames`. -/
def Workbook.sheetnames (wb : Workbook) : List String := wb.sheets.map Sheet.name

/-- `workbook[name]` (callers only use it for names present in the workbook;
an absent name yields an empty sheet of that name). -/
def Workbook.getSheet (wb : Workbook) (n : String) : Sheet :=
  (wb.sheets.find? (fun t => decide (t.name = n))).getD ⟨n, []⟩

/-- Write back a (mutated) worksheet object into the workbook. -/
def Workbook.setSheet (wb : Workbook) (s : Sheet) : Workbook :=
  ⟨wb.sheets.map (fun t => if t.name = s.name then s else t)⟩

/-- `workbook.create_sheet(name)`: append a fresh empty worksheet. -/
def Workbook.createSheet (wb : Workbook) (n : String) : Workbook :=
  ⟨wb.sheets ++ [⟨n, []⟩]⟩

/-! ## Schema reconciler -/

/-- The fixed required header schema `APPOINTMENTS_HEADERS`. -/
def APPOINTMENTS_HEADERS : List String :=
  ["Logged At", "Action", "Patient Name", "Patient Age or DOB", "Phone",
   "Department or Doctor", "Reason", "Preferred Date", "Preferred Time",
   "Visit Type", "Existing Appointment", "Notes"]

/-- Insertion-ordered dictionary lookup (`dict.get`). -/
def alGet {α : Type} : List (String × α) → String → Option α
  | [], _ => none
  | p :: rest, k => if p.1 = k then some p.2 else alGet rest k

/-- Insertion-ordered dictionary update (`dict[k] = v`): replace the value of
an existing key in place, otherwise append the binding at the end. -/
def alSet {α : Type} : List (String × α) → String → α → List (String × α)
  | [], k, v => [(k, v)]
  | p :: rest, k, v => if p.1 = k then (k, v) :: rest else p :: alSet rest k v

/-- Dictionary membership (`k in dict`). -/
def alHasKey {α : Type} (m : List (String × α)) (k : String) : Bool :=
  (alGet m k).isSome

/-- Header name to 1-indexed column position. -/
abbrev HeaderMap := List (String × Nat)

/-- A data row keyed by header name (`row_values` in the source). -/
abbrev RowMap := List (String × Cell)

/-- The `sheet[1]` header cells: row 1 padded to `max_column`. -/
def headerCellsList (s : Sheet) : List Cell :=
  padTo (s.cells.getD 0 []) s.maxCol none

/-- Build the header map from existing header cells: skip `None` cells, key
each remaining cell by its trimmed text (later duplicates override). -/
def buildHM : List Cell → Nat → HeaderMap → HeaderMap
  | [], _, m => m
  | c :: rest, idx, m =>
    match c with
    | none => buildHM rest (idx + 1) m
    | some v => buildHM rest (idx + 1) (alSet m (cellTextS v) idx)

/-- Append every required field missing from the header map as a new column
after the current last column, writing its name into the header row. -/
def appendMissing : List String → HeaderMap → Nat → Sheet → HeaderMap × Sheet
  | [], m, _, s => (m, s)
  | n :: rest, m, last, s =>
    if alHasKey m n then appendMissing rest m last s
    else appendMissing rest (alSet m n (last + 1)) (last + 1)
      (s.setCell 1 (last + 1) (some n))

/-- Write the full required header list into row 1 of a fresh sheet. -/
def writeHeaderRow (s : Sheet) : Sheet :=
  APPOINTMENTS_HEADERS.enum.foldl (fun sh p => sh.setCell 1 (p.1 + 1) (some p.2)) s

/-- The header map produced for a freshly initialized sheet. -/
def initialHeaderMap : HeaderMap :=
  APPOINTMENTS_HEADERS.enum.map (fun p => (p.2, p.1 + 1))

/-- Source `_ensure_sheet_headers`: on an entirely empty sheet write the
required header list verbatim; otherwise reconcile the existing header row,
appending missing required fields at the end. -/
def ensure_sheet_headers (s : Sheet) : HeaderMap × Sheet :=
  let header_cells := headerCellsList s
  if s.maxRow = 1 ∧ s.maxCol = 1 ∧ header_cells.getD 0 none = none then
    (initialHeaderMap, writeHeaderRow s)
  else
    appendMissing APPOINTMENTS_HEADERS (buildHM header_cells 1 []) header_cells.length s

/-- The trimmed texts of the non-`None` header cells of a sheet. -/
def headerTexts (s : Sheet) : List String :=
  (headerCellsList s).filterMap (fun c => c.map cellTextS)

/-! ## Routing policy -/

/-- Python `or` on strings: the first operand unless it is empty. -/
def orS (a b : String) : String := if a = "" then b else a

/-- Source `DEFAULT_APPOINTMENTS_SHEET`. -/
def DEFAULT_APPOINTMENTS_SHEET : String := "Appointments"

/-- Source `_use_single_appointments_sheet`: every mode other than
`per_date` / `date` / `dated` (after trim and lower-case) is single-sheet. -/
def useSingle (env : Env) : Bool :=
  let mode := pyLower (pyStrip env.sheetMode)
  if mode = "per_date" ∨ mode = "date" ∨ mode = "dated" then false else true

/-- Source `_appointments_sheet_name`: the configured fixed sheet in
single-sheet mode; otherwise a date shard, falling back to today. -/
def appointments_sheet_name (env : Env) (preferredDateNorm existingNorm : String) :
    String :=
  if useSingle env then
    orS (safe_sheet_name env.sheetNameOverride) DEFAULT_APPOINTMENTS_SHEET
  else
    let targetDate := orS (orS preferredDateNorm (normalize_date env existingNorm)) env.nowDate
    orS (safe_sheet_name targetDate) env.nowDate

/-! ## Ledger store: append (`log_appointment`) -/

/-- Arguments of the `log_appointment` tool (absent arguments are `""`). -/
structure LogArgs where
  action : String
  patient_name : String
  patient_age_or_dob : String
  phone : String
  department_or_doctor : String
  reason : String
  preferred_date : String
  preferred_time : String
  visit_type : String
  existing_appointment : String
  notes : String
  deriving DecidableEq, Repr

/-- Result of `log_appointment`. -/
inductive LogResult where
  | logged (path sheet : String)
  | error (reason : String) (path : String)
  deriving DecidableEq, Repr

/-- Text of a cell: `_cell_text` applied to a cell value. -/
def cellTextC : Cell → String
  | none => ""
  | some s => pyStrip s

/-- `_cell_text(row_values.get(h))`: absent keys read as `None`. -/
def cellTextOpt (o : Option Cell) : String := cellTextC (o.getD none)

/-- The row written by `log_appointment` (normalized and raw fields plus the
storage-assigned timestamp). -/
def logRow (env : Env) (a : LogArgs) : List Cell :=
  [some env.nowStamp,
   some (cellTextS a.action),
   some (cellTextS a.patient_name),
   some (cellTextS a.patient_age_or_dob),
   some (orS (normalize_phone a.phone) (cellTextS a.phone)),
   some (cellTextS a.department_or_doctor),
   some (cellTextS a.reason),
   some (orS (normalize_date env a.preferred_date) (cellTextS a.preferred_date)),
   some (cellTextS a.preferred_time),
   some (cellTextS a.visit_type),
   some (cellTextS a.existing_appointment),
   some (cellTextS a.notes)]

/-- Source `_append_row_to_workbook`: open or create the ledger file and the
target worksheet, reconcile its schema, and append the row. -/
def append_row_to_workbook (disk : Option Workbook) (sheetName : String)
    (row : List Cell) : Workbook :=
  let wb : Workbook :=
    match disk with
    | some wb => if sheetName ∈ wb.sheetnames then wb else wb.createSheet sheetName
    | none => ⟨[⟨sheetName, []⟩]⟩
  let s := (ensure_sheet_headers (wb.getSheet sheetName)).2
  wb.setSheet (s.appendRow row)

/-- The first storage failure raised during `_append_row_to_workbook` (the
load only runs when the file exists; the save always runs). -/
def logFailure (env : Env) (disk : Option Workbook) : Option StorageErr :=
  match disk with
  | some _ =>
    match env.loadErr with
    | some e => some e
    | none => env.saveErr
  | none => env.saveErr

/-- The `reason` string under which each storage failure is reported. -/
def errReason : StorageErr → String
  | .permissionError => "file_locked"
  | .otherError => "write_failed"

/-- Source `log_appointment`: build the row, resolve the target sheet, and
append under the lock; storage failures are caught and converted into
structured error results. -/
def log_appointment (env : Env) (disk : Option Workbook) (a : LogArgs) :
    LogResult × Option Workbook :=
  let pdn := normalize_date env a.preferred_date
  let existingNorm := cellTextS a.existing_appointment
  let sheetName := appointments_sheet_name env pdn existingNorm
  match logFailure env disk with
  | some e => (.error (errReason e) env.path, disk)
  | none =>
    (.logged env.path sheetName,
     some (append_row_to_workbook disk sheetName (logRow env a)))

/-! ## Ledger store: find-and-update (`update_appointment`) -/

/-- Arguments of the `update_appointment` tool (absent arguments are `""`). -/
structure UArgs where
  action : String
  search_name : String
  search_phone : String
  search_date : String
  search_time : String
  patient_name : String
  patient_age_or_dob : String
  phone : String
  department_or_doctor : String
  reason : String
  preferred_date : String
  preferred_time : String
  visit_type : String
  existing_appointment : String
  notes : String
  deriving DecidableEq, Repr

/-- The argument promotion at the top of `update_appointment`: an absent
`search_name` is filled from `patient_name`, an absent `search_phone` from
`phone`. -/
def promote (a : UArgs) : UArgs :=
  { a with
    search_name := if a.search_name = "" ∧ a.patient_name ≠ "" then a.patient_name
      else a.search_name,
    search_phone := if a.search_phone = "" ∧ a.phone ≠ "" then a.phone
      else a.search_phone }

/-- One candidate row found by the scan: worksheet name, 1-indexed row, and
the row's values keyed by header. -/
structure Cand where
  sheet : String
  row : Nat
  rv : RowMap
  deriving DecidableEq, Repr

/-- One entry of a `multiple_matches` result. -/
structure MatchEntry where
  sheet : String
  row : Nat
  patient_name : String
  phone : String
  preferred_date : String
  preferred_time : String
  existing_appointment : String
  deriving DecidableEq, Repr

/-- Result of `update_appointment`. -/
inductive UpdateResult where
  | missing_search
  | not_found (reason : String)
  | multiple_matches (entries : List MatchEntry)
  | updated (path sheet : String) (moved : Bool)
  deriving DecidableEq, Repr

/-- The identifying fields reported for one candidate. -/
def matchEntry (c : Cand) : MatchEntry :=
  { sheet := c.sheet,
    row := c.row,
    patient_name := cellTextOpt (alGet c.rv "Patient Name"),
    phone := cellTextOpt (alGet c.rv "Phone"),
    preferred_date := cellTextOpt (alGet c.rv "Preferred Date"),
    preferred_time := cellTextOpt (alGet c.rv "Preferred Time"),
    existing_appointment := cellTextOpt (alGet c.rv "Existing Appointment") }

/-- The worksheet hint searched first, from the normalized search date. -/
def searchHint (env : Env) (searchDateNorm : String) : String :=
  if useSingle env then appointments_sheet_name env searchDateNorm ""
  else if searchDateNorm = "" then "" else safe_sheet_name searchDateNorm

/-- The ordered worksheet list to scan: the hint first when present, then the
remaining worksheets in their existing order. -/
def sheetOrder (wb : Workbook) (hint : String) : List String :=
  if hint ≠ "" ∧ hint ∈ wb.sheetnames then
    hint :: wb.sheetnames.filter (fun n => decide (n ≠ hint))
  else wb.sheetnames

/-- The row's values under the header map. -/
def buildRowMap (hm : HeaderMap) (s : Sheet) (r : Nat) : RowMap :=
  hm.map (fun p => (p.1, s.cellVal r p.2))

/-- A row is blank when every value is `None` or the empty string. -/
def rowBlank (rv : RowMap) : Bool :=
  rv.all (fun p => decide (p.2 = none ∨ p.2 = some ""))

/-- The candidate filter: every supplied (non-empty) criterion must match. -/
def rowIsCandidate (env : Env) (a : UArgs) (spn : String) (rv : RowMap) : Bool :=
  let rowName := cellTextOpt (alGet rv "Patient Name")
  let rowPhone := normalize_phone (cellTextOpt (alGet rv "Phone"))
  let rowPrefDate := cellTextOpt (alGet rv "Preferred Date")
  let rowPrefTime := cellTextOpt (alGet rv "Preferred Time")
  let rowExisting := cellTextOpt (alGet rv "Existing Appointment")
  (decide (a.search_name = "") || text_matches a.search_name rowName) &&
  (decide (spn = "") || phone_matches spn rowPhone) &&
  (decide (a.search_date = "") || date_matches env a.search_date rowPrefDate ||
    date_matches env a.search_date rowExisting) &&
  (decide (a.search_time = "") || time_matches a.search_time rowPrefTime ||
    time_matches a.search_time rowExisting)

/-- Scan one worksheet: reconcile its headers, then filter its data rows
(rows 2 through `max_row`), skipping blank rows. -/
def scanSheet (env : Env) (a : UArgs) (spn : String) (s0 : Sheet) :
    Sheet × List Cand :=
  let es := ensure_sheet_headers s0
  let s := es.2
  (s, (List.range' 2 (s.maxRow - 1)).filterMap (fun r =>
    let rv := buildRowMap es.1 s r
    if rowBlank rv then none
    else if rowIsCandidate env a spn rv then some ⟨s.name, r, rv⟩ else none))

/-- Scan the worksheets in order, threading header mutations through the
in-memory workbook and accumulating candidates in scan order. -/
def scanAll (env : Env) (a : UArgs) (spn : String) :
    Workbook → List String → Workbook × List Cand
  | wb, [] => (wb, [])
  | wb, n :: rest =>
    let p := scanSheet env a spn (wb.getSheet n)
    let q := scanAll env a spn (wb.setSheet p.1) rest
    (q.1, p.2 ++ q.2)

/-- The whole search phase of `update_appointment`. -/
def scanPhase (env : Env) (wb0 : Workbook) (a : UArgs) : Workbook × List Cand :=
  let spn := normalize_phone a.search_phone
  let sdn := normalize_date env a.search_date
  scanAll env a spn wb0 (sheetOrder wb0 (searchHint env sdn))

/-- Python `action_value.lower().startswith("resched")`. -/
def startsWithResched (v : String) : Bool :=
  prefixEq "resched".data (pyLower v).data

/-- Join the non-empty parts with single spaces (`" ".join`). -/
def joinSpace (parts : List String) : String :=
  String.intercalate " " (parts.filter (fun p => decide (p ≠ "")))

/-- The synthesized prior-appointment snapshot: the row's pre-update
preferred date and time. -/
def snapshotOf (rv : RowMap) : String :=
  joinSpace [cellTextOpt (alGet rv "Preferred Date"),
             cellTextOpt (alGet rv "Preferred Time")]

/-- The effective `existing_appointment` value after the reschedule-snapshot
rule: when none was supplied, the action is a reschedule, and the row has no
existing-appointment text, a non-empty snapshot takes its place. -/
def effectiveExisting (a : UArgs) (actionValue : String) (rv : RowMap) : String :=
  if a.existing_appointment = "" ∧ startsWithResched actionValue = true ∧
      cellTextOpt (alGet rv "Existing Appointment") = "" ∧ snapshotOf rv ≠ "" then
    snapshotOf rv
  else a.existing_appointment

/-- The merge of the supplied non-empty update fields into the matched row's
values (`updated_values` in the source), including the forced `Action` field
and the reschedule snapshot rule. -/
def mergeUpdates (env : Env) (a : UArgs) (rv : RowMap) : RowMap :=
  let actionValue := cellTextS a.action
  let pdn := normalize_date env a.preferred_date
  let ea := effectiveExisting a actionValue rv
  let uv := alSet rv "Action" (some actionValue)
  let uv := if a.patient_name = "" then uv
    else alSet uv "Patient Name" (some a.patient_name)
  let uv := if a.patient_age_or_dob = "" then uv
    else alSet uv "Patient Age or DOB" (some a.patient_age_or_dob)
  let uv := if a.phone = "" then uv
    else alSet uv "Phone" (some (orS (normalize_phone a.phone) a.phone))
  let uv := if a.department_or_doctor = "" then uv
    else alSet uv "Department or Doctor" (some a.department_or_doctor)
  let uv := if a.reason = "" then uv else alSet uv "Reason" (some a.reason)
  let uv := if a.preferred_date = "" then uv
    else alSet uv "Preferred Date" (some (orS pdn a.preferred_date))
  let uv := if a.preferred_time = "" then uv
    else alSet uv "Preferred Time" (some a.preferred_time)
  let uv := if a.visit_type = "" then uv
    else alSet uv "Visit Type" (some a.visit_type)
  let uv := if ea = "" then uv else alSet uv "Existing Appointment" (some ea)
  if a.notes = "" then uv else alSet uv "Notes" (some a.notes)

/-- The destination worksheet name: under date-sharded routing a reschedule
with a supplied preferred date retargets to the new date's shard. -/
def newSheetName (env : Env) (a : UArgs) (sheetName : String) : String :=
  let actionValue := cellTextS a.action
  let pdn := normalize_date env a.preferred_date
  if useSingle env = false ∧ a.preferred_date ≠ "" ∧
      startsWithResched actionValue = true then
    orS (safe_sheet_name pdn) sheetName
  else sheetName

/-- The positional row appended to a destination worksheet on relocation:
one cell per required header, absent keys degrading to `""`. -/
def targetRow (uv : RowMap) : List Cell :=
  APPOINTMENTS_HEADERS.map (fun h => (alGet uv h).getD (some ""))

/-- Relocation: append the merged row to the destination worksheet (created
and schema-reconciled if needed) and delete the original row. -/
def relocate (wb2 : Workbook) (nsn : String) (c : Cand) (uv : RowMap) : Workbook :=
  let wb3 := if nsn ∈ wb2.sheetnames then wb2 else wb2.createSheet nsn
  let tgt := ((ensure_sheet_headers (wb3.getSheet nsn)).2).appendRow (targetRow uv)
  let wb4 := wb3.setSheet tgt
  let src := wb4.getSheet c.sheet
  wb4.setSheet (src.deleteRow c.row)

/-- In-place update: write every merged non-`None` value into its header's
column of the matched row, skipping the `Logged At` column. -/
def inPlaceWrite (c : Cand) (uv : RowMap) (hm : HeaderMap) (sh : Sheet) : Sheet :=
  hm.foldl (fun acc p =>
    if p.1 = "Logged At" then acc
    else
      match alGet uv p.1 with
      | some (some v) => acc.setCell c.row p.2 (some v)
      | _ => acc) sh

/-- The mutation phase of `update_appointment` applied to the resolved
candidate: merge, relocate or update in place, then persist. -/
def applyUpdate (env : Env) (a : UArgs) (wb1 : Workbook) (c : Cand) :
    Except StorageErr (UpdateResult × Option Workbook) :=
  let es := ensure_sheet_headers (wb1.getSheet c.sheet)
  let wb2 := wb1.setSheet es.2
  let uv := mergeUpdates env a c.rv
  let nsn := newSheetName env a c.sheet
  let wbF :=
    if nsn ≠ c.sheet then relocate wb2 nsn c uv
    else wb2.setSheet (inPlaceWrite c uv es.1 (wb2.getSheet c.sheet))
  match env.saveErr with
  | some e => .error e
  | none => .ok (.updated env.path nsn (decide (nsn ≠ c.sheet)), some wbF)

/-- The resolution phase: no candidate is `not_found`; several candidates
without a date/time criterion yield `multiple_matches` (first ten) and leave
the ledger untouched; otherwise the first candidate is updated. -/
def resolvePhase (env : Env) (origDisk : Option Workbook) (a : UArgs)
    (wb1 : Workbook) (cands : List Cand) :
    Except StorageErr (UpdateResult × Option Workbook) :=
  match cands with
  | [] => .ok (.not_found "", origDisk)
  | c :: rest =>
    if rest ≠ [] ∧ a.search_date = "" ∧ a.search_time = "" then
      .ok (.multiple_matches (((c :: rest).take 10).map matchEntry), origDisk)
    else applyUpdate env a wb1 c

/-- Source `update_appointment`: promote update fields into search criteria,
guard against an empty search, then scan, resolve, and mutate. Storage
failures (modelled via `Env.loadErr` / `Env.saveErr`) are not caught here
and propagate as `Except.error`. -/
def update_appointment (env : Env) (disk : Option Workbook) (a0 : UArgs) :
    Except StorageErr (UpdateResult × Option Workbook) :=
  let a := promote a0
  if a.search_name = "" ∧ a.search_phone = "" ∧ a.search_date = "" ∧
      a.search_time = "" then
    .ok (.missing_search, disk)
  else
    match disk with
    | none => .ok (.not_found "missing_workbook", disk)
    | some wb0 =>
      match env.loadErr with
      | some e => .error e
      | none =>
        match scanPhase env wb0 a with
        | (wb1, cands) => resolvePhase env disk a wb1 cands

/-- Decidable equality for `Except` results. -/
instance {e a : Type} [DecidableEq e] [DecidableEq a] : DecidableEq (Except e a) :=
  fun x y =>
    match x, y with
    | .ok v, .ok w => if h : v = w then isTrue (by rw [h]) else isFalse (by simp [h])
    | .error v, .error w => if h : v = w then isTrue (by rw [h]) else isFalse (by simp [h])
    | .ok _, .error _ => isFalse (by simp)
    | .error _, .ok _ => isFalse (by simp)

/-! ## Concrete instances used in witnesses and counterexamples -/

/-- A single-sheet-mode environment with no storage failures. -/
def envSingle : Env :=
  ⟨"ledger.xlsx", "single", "Appointments", "2026-10-12", "2026-10-12 09:00:00",
   fun _ => none, none, none⟩

/-- A date-sharded environment with no storage failures. -/
def envSharded : Env :=
  ⟨"ledger.xlsx", "per_date", "Appointments", "2026-10-12", "2026-10-12 09:00:00",
   fun _ => none, none, none⟩

/-- An environment whose ledger load raises a `PermissionError`. -/
def envLocked : Env :=
  ⟨"ledger.xlsx", "single", "Appointments", "2026-10-12", "2026-10-12 09:00:00",
   fun _ => none, some .permissionError, none⟩

/-- A standard header row. -/
def hdrRow : List Cell := APPOINTMENTS_HEADERS.map some

/-- A booked appointment row for Alice Smith on 2026-03-01. -/
def rowAlice1 : List Cell :=
  [some "2026-01-01 10:00:00", some "book", some "Alice Smith", some "30",
   some "5551234567", some "Cardiology", some "checkup", some "2026-03-01",
   some "morning", some "first", some "", some ""]

/-- A booked appointment row for Alice Smith on 2026-03-02. -/
def rowAlice2 : List Cell :=
  [some "2026-01-02 10:00:00", some "book", some "Alice Smith", some "30",
   some "5551234567", some "Cardiology", some "checkup", some "2026-03-02",
   some "morning", some "first", some "", some ""]

/-- A single-sheet ledger holding both Alice rows. -/
def wbTwo : Workbook := ⟨[⟨"Appointments", [hdrRow, rowAlice1, rowAlice2]⟩]⟩

/-- A date-sharded ledger holding the first Alice row. -/
def wbOne : Workbook := ⟨[⟨"2026-03-01", [hdrRow, rowAlice1]⟩]⟩

/-- Update arguments supplying only the update field `patient_name` and no
search criterion. -/
def argsOnlyPatient : UArgs :=
  ⟨"cancel", "", "", "", "", "Alice", "", "", "", "", "", "", "", "", ""⟩

/-- Update arguments with no search criteria and no update fields that could
be promoted into one. -/
def argsEmpty : UArgs :=
  ⟨"cancel", "", "", "", "", "", "", "", "", "", "", "", "", "", ""⟩

/-- Update arguments searching by name only. -/
def argsSearchName : UArgs :=
  ⟨"reschedule", "Alice", "", "", "", "", "", "", "", "", "", "", "", "", ""⟩

/-- Reschedule arguments searching by name with a new preferred date. -/
def argsResched : UArgs :=
  ⟨"reschedule", "Alice", "", "", "", "", "", "", "", "", "2026-03-05", "", "", "", ""⟩

/-- Log arguments for a plain booking. -/
def logArgsB : LogArgs :=
  ⟨"book", "Alice Smith", "30", "(555) 123-4567", "Cardiology", "checkup",
   "2026-03-01", "morning", "first", "", ""⟩

/-- The row map of a data row under the standard header layout. -/
def rvOfRow (r : List Cell) : RowMap := APPOINTMENTS_HEADERS.zip r

/-- The first Alice candidate in `wbTwo`. -/
def candTwoA : Cand := ⟨"Appointments", 2, rvOfRow rowAlice1⟩

/-- The second Alice candidate in `wbTwo`. -/
def candTwoB : Cand := ⟨"Appointments", 3, rvOfRow rowAlice2⟩

/-- The Alice candidate in `wbOne`. -/
def candMove : Cand := ⟨"2026-03-01", 2, rvOfRow rowAlice1⟩

/-- A sheet whose header row misses most required fields. -/
def sheetSparse : Sheet := ⟨"S", [[some "Logged At", some "Action", some "Custom"]]⟩

/-- A sheet whose header row already satisfies the whole schema. -/
def sheetFull : Sheet := ⟨"Appointments", [hdrRow, rowAlice1]⟩

/-! ## Lemmas: characters and digit lists -/

theorem isDigit_toNat_bounds {c : Char} (h : c.isDigit = true) :
    48 ≤ c.toNat ∧ c.toNat ≤ 57 := by
  simp [Char.isDigit] at h
  exact h

theorem isDigit_not_pyWs {c : Char} (h : c.isDigit = true) : pyWs c = false := by
  unfold pyWs
  by_contra hcon
  simp only [Bool.not_eq_false, Bool.or_eq_true, decide_eq_true_eq] at hcon
  rcases hcon with ((((h1 | h1) | h1) | h1) | h1) | h1 <;> subst h1 <;>
    exact absurd h (by decide)

theorem digitChar_isDigit (n : Nat) : (digitChar n).isDigit = true := by
  rcases n with _|_|_|_|_|_|_|_|_|n <;> rfl

theorem digitChar_toNat {n : Nat} (h : n ≤ 9) : (digitChar n).toNat = 48 + n := by
  interval_cases n <;> rfl

theorem digitsValL_append_one (l : List Char) (c : Char) :
    digitsValL (l ++ [c]) = digitsValL l * 10 + (c.toNat - 48) := by
  simp [digitsValL, List.foldl_append]

theorem digitsValL_cons_zero (l : List Char) : digitsValL ('0' :: l) = digitsValL l := rfl

theorem digitsValL_zeros (k : Nat) (l : List Char) :
    digitsValL (List.replicate k '0' ++ l) = digitsValL l := by
  induction k with
  | zero => simp
  | succ k ih => simpa [List.replicate_succ, digitsValL_cons_zero] using ih

theorem foldl_digits_lt (l : List Char) : ∀ acc : Nat, (∀ c ∈ l, c.isDigit = true) →
    l.foldl (fun a c => a * 10 + (c.toNat - 48)) acc < (acc + 1) * 10 ^ l.length := by
  induction l with
  | nil => intro acc _; simp
  | cons c t ih =>
    intro acc h
    have hc := isDigit_toNat_bounds (h c (by simp))
    have hd : c.toNat - 48 ≤ 9 := by omega
    have hrec := ih (acc * 10 + (c.toNat - 48)) (fun x hx => h x (by simp [hx]))
    have hstep : (acc * 10 + (c.toNat - 48) + 1) * 10 ^ t.length ≤
        (acc + 1) * 10 ^ (c :: t).length := by
      have h1 : acc * 10 + (c.toNat - 48) + 1 ≤ (acc + 1) * 10 := by omega
      calc (acc * 10 + (c.toNat - 48) + 1) * 10 ^ t.length
          ≤ ((acc + 1) * 10) * 10 ^ t.length := Nat.mul_le_mul_right _ h1
        _ = (acc + 1) * 10 ^ (c :: t).length := by
            simp [List.length_cons, pow_succ]; ring
    calc (c :: t).foldl (fun a c => a * 10 + (c.toNat - 48)) acc
        = t.foldl (fun a c => a * 10 + (c.toNat - 48)) (acc * 10 + (c.toNat - 48)) := rfl
      _ < (acc * 10 + (c.toNat - 48) + 1) * 10 ^ t.length := hrec
      _ ≤ (acc + 1) * 10 ^ (c :: t).length := hstep

theorem digitsValL_lt (l : List Char) (h : ∀ c ∈ l, c.isDigit = true) :
    digitsValL l < 10 ^ l.length := by
  simpa [digitsValL] using foldl_digits_lt l 0 h

theorem natDigitsAux_spec : ∀ fuel n, n < fuel →
    digitsValL (natDigitsAux fuel n) = n ∧
    (∀ c ∈ natDigitsAux fuel n, c.isDigit = true) ∧ natDigitsAux fuel n ≠ [] := by
  intro fuel
  induction fuel with
  | zero => intro n h; omega
  | succ fuel ih =>
    intro n h
    by_cases h10 : n < 10
    · refine ⟨?_, ?_, ?_⟩
      · simp [natDigitsAux, h10, digitsValL, digitChar_toNat (by omega : n ≤ 9)]
      · intro c hc
        simp [natDigitsAux, h10] at hc
        subst hc
        exact digitChar_isDigit n
      · simp [natDigitsAux, h10]
    · have hdiv : n / 10 < fuel := by omega
      obtain ⟨hv, hdig, hne⟩ := ih (n / 10) hdiv
      refine ⟨?_, ?_, ?_⟩
      · rw [show natDigitsAux (fuel + 1) n =
            natDigitsAux fuel (n / 10) ++ [digitChar (n % 10)] by simp [natDigitsAux, h10]]
        rw [digitsValL_append_one, hv, digitChar_toNat (by omega : n % 10 ≤ 9)]
        omega
      · intro c hc
        rw [show natDigitsAux (fuel + 1) n =
            natDigitsAux fuel (n / 10) ++ [digitChar (n % 10)] by simp [natDigitsAux, h10]] at hc
        rcases List.mem_append.mp hc with hc | hc
        · exact hdig c hc
        · simp at hc; subst hc; exact digitChar_isDigit _
      · simp [natDigitsAux, h10]

theorem natDigitsAux_len : ∀ fuel n k, n < fuel → n < 10 ^ k → 1 ≤ k →
    (natDigitsAux fuel n).length ≤ k := by
  intro fuel
  induction fuel with
  | zero => intro n k h; omega
  | succ fuel ih =>
    intro n k h hk h1
    by_cases h10 : n < 10
    · simp [natDigitsAux, h10]; omega
    · have hk2 : 2 ≤ k := by
        by_contra hcon
        have hke : k = 1 := by omega
        subst hke
        simp at hk
        omega
      have hdivk : n / 10 < 10 ^ (k - 1) := by
        have : 10 ^ k = 10 ^ (k - 1) * 10 := by
          rw [← pow_succ]
          congr 1
          omega
        rw [Nat.div_lt_iff_lt_mul (by norm_num)]
        omega
      have hrec := ih (n / 10) (k - 1) (by omega) hdivk (by omega)
      rw [show natDigitsAux (fuel + 1) n =
          natDigitsAux fuel (n / 10) ++ [digitChar (n % 10)] by simp [natDigitsAux, h10]]
      simp only [List.length_append, List.length_cons, List.length_nil]
      omega

theorem fmtNum_spec (k n : Nat) (hn : n < 10 ^ k) (hk : 1 ≤ k) :
    (fmtNum k n).length = k ∧ (∀ c ∈ fmtNum k n, c.isDigit = true) ∧
    digitsValL (fmtNum k n) = n := by
  obtain ⟨hv, hdig, _⟩ := natDigitsAux_spec (n + 1) n (Nat.lt_succ_self n)
  have hlen : (natDigits n).length ≤ k := natDigitsAux_len (n + 1) n k (Nat.lt_succ_self n) hn hk
  refine ⟨?_, ?_, ?_⟩
  · simp [fmtNum, padZeros]
    omega
  · intro c hc
    simp only [fmtNum, padZeros, List.mem_append] at hc
    rcases hc with hc | hc
    · rw [List.eq_of_mem_replicate hc]; rfl
    · exact hdig c hc
  · rw [show fmtNum k n = List.replicate (k - (natDigits n).length) '0' ++ natDigits n from rfl]
    rw [digitsValL_zeros]
    exact hv

/-! ## Lemmas: digit-run parsing and date format round-trips -/


theorem takeWhile_append_stop {p : Char → Bool} {l1 : List Char} (x : Char)
    (l2 : List Char) (h1 : ∀ c ∈ l1, p c = true) (hx : p x = false) :
    (l1 ++ x :: l2).takeWhile p = l1 ∧ (l1 ++ x :: l2).dropWhile p = x :: l2 := by
  induction l1 with
  | nil => simp [List.takeWhile, List.dropWhile, hx]
  | cons a t ih =>
    have ha : p a = true := h1 a (by simp)
    have hrec := ih (fun c hc => h1 c (by simp [hc]))
    simp [List.takeWhile, List.dropWhile, ha, hrec.1, hrec.2]

theorem takeWhile_all_sat {p : Char → Bool} {l : List Char}
    (h : ∀ c ∈ l, p c = true) : l.takeWhile p = l ∧ l.dropWhile p = [] := by
  induction l with
  | nil => simp
  | cons a t ih =>
    have ha : p a = true := h a (by simp)
    have hrec := ih (fun c hc => h c (by simp [hc]))
    simp [List.takeWhile, List.dropWhile, ha, hrec.1, hrec.2]

theorem fieldYear_fmt {y : Nat} (hy : y < 10000) (rest : List Char) :
    fieldYear (fmtNum 4 y ++ '-' :: rest) = some (y, '-' :: rest) := by
  obtain ⟨hlen, hdig, hval⟩ := fmtNum_spec 4 y (by simpa using hy) (by norm_num)
  obtain ⟨ht, hd⟩ := takeWhile_append_stop '-' rest hdig (by decide)
  simp [fieldYear, ht, hd, hlen, hval]

theorem fieldSmall_fmt {hi v : Nat} (hv1 : 1 ≤ v) (hv : v ≤ hi) (hv99 : v < 100)
    (rest : List Char) :
    fieldSmall hi (fmtNum 2 v ++ '-' :: rest) = some (v, '-' :: rest) := by
  obtain ⟨hlen, hdig, hval⟩ := fmtNum_spec 2 v (by simpa using hv99) (by norm_num)
  obtain ⟨ht, hd⟩ := takeWhile_append_stop '-' rest hdig (by decide)
  simp only [fieldSmall, ht, hd, hlen, hval]
  rw [if_neg (by omega), if_pos ⟨hv1, hv⟩]

theorem fieldSmall_fmt_end {hi v : Nat} (hv1 : 1 ≤ v) (hv : v ≤ hi) (hv99 : v < 100) :
    fieldSmall hi (fmtNum 2 v) = some (v, []) := by
  obtain ⟨hlen, hdig, hval⟩ := fmtNum_spec 2 v (by simpa using hv99) (by norm_num)
  obtain ⟨ht, hd⟩ := takeWhile_all_sat hdig
  simp only [fieldSmall, ht, hd, hlen, hval]
  rw [if_neg (by omega), if_pos ⟨hv1, hv⟩]

theorem monthLen_le (y m : Nat) : monthLen y m ≤ 31 := by
  unfold monthLen
  split_ifs <;> omega

theorem parseFmtYMD_fmtDate {y m d : Nat} (hy1 : 1 ≤ y) (hy : y < 10000)
    (hm1 : 1 ≤ m) (hm : m ≤ 12) (hd1 : 1 ≤ d) (hd : d ≤ monthLen y m) :
    parseFmtYMD (fmtDate y m d).data = some (y, m, d) := by
  have hdata : (fmtDate y m d).data =
      fmtNum 4 y ++ '-' :: (fmtNum 2 m ++ '-' :: fmtNum 2 d) := rfl
  rw [hdata]
  have h1 := fieldYear_fmt hy (fmtNum 2 m ++ '-' :: fmtNum 2 d)
  have h2 := fieldSmall_fmt hm1 hm (by omega) (fmtNum 2 d)
  have h3 := fieldSmall_fmt_end hd1 (by have := monthLen_le y m; omega : d ≤ (31 : Nat))
    (by have := monthLen_le y m; omega)
  simp only [parseFmtYMD, h1, h2, h3, Option.bind_eq_bind, Option.some_bind, sepLit,
    if_pos]
  simp [mkYMD, hy1, hd]

theorem mkYMD_eq_some {y m d y2 m2 d2 : Nat} (h : mkYMD y m d = some (y2, m2, d2)) :
    y2 = y ∧ m2 = m ∧ d2 = d ∧ 1 ≤ y ∧ d ≤ monthLen y m := by
  unfold mkYMD at h
  split_ifs at h with hc
  simp only [Option.some.injEq, Prod.mk.injEq] at h
  exact ⟨h.1.symm, h.2.1.symm, h.2.2.symm, hc.1, hc.2⟩

theorem fieldSmall_bounds {hi : Nat} {cs : List Char} {v : Nat} {r : List Char}
    (h : fieldSmall hi cs = some (v, r)) : 1 ≤ v ∧ v ≤ hi := by
  simp only [fieldSmall] at h
  split_ifs at h with h1 h2
  simp only [Option.some.injEq, Prod.mk.injEq] at h
  obtain ⟨hv, -⟩ := h
  rw [hv] at h2
  exact h2

theorem fieldYear_bounds {cs : List Char} {v : Nat} {r : List Char}
    (h : fieldYear cs = some (v, r)) : v < 10000 := by
  simp only [fieldYear] at h
  split_ifs at h with h1
  simp only [Option.some.injEq, Prod.mk.injEq] at h
  obtain ⟨hv, -⟩ := h
  have hdig : ∀ c ∈ cs.takeWhile Char.isDigit, c.isDigit = true :=
    fun c hc => List.mem_takeWhile_imp hc
  have hlt := digitsValL_lt (cs.takeWhile Char.isDigit) hdig
  rw [h1, hv] at hlt
  norm_num at hlt
  exact hlt

theorem parseFmtYMD_bounds {cs : List Char} {y m d : Nat}
    (h : parseFmtYMD cs = some (y, m, d)) :
    1 ≤ y ∧ y < 10000 ∧ 1 ≤ m ∧ m ≤ 12 ∧ 1 ≤ d ∧ d ≤ monthLen y m := by
  simp only [parseFmtYMD, Option.bind_eq_bind, Option.bind_eq_some] at h
  obtain ⟨⟨y1, r1⟩, hy, h⟩ := h
  obtain ⟨r2, hs1, h⟩ := h
  obtain ⟨⟨m1, r3⟩, hm, h⟩ := h
  obtain ⟨r4, hs2, h⟩ := h
  obtain ⟨⟨d1, r5⟩, hd, h⟩ := h
  split_ifs at h with h5
  obtain ⟨hy2, hm2, hd2, hy1', hdm⟩ := mkYMD_eq_some h
  subst hy2
  subst hm2
  subst hd2
  have hyb := fieldYear_bounds hy
  have hmb := fieldSmall_bounds hm
  have hdb := fieldSmall_bounds hd
  exact ⟨hy1', hyb, hmb.1, hmb.2, hdb.1, hdm⟩

theorem parseFmtDMY_bounds {sep : Char} {cs : List Char} {y m d : Nat}
    (h : parseFmtDMY sep cs = some (y, m, d)) :
    1 ≤ y ∧ y < 10000 ∧ 1 ≤ m ∧ m ≤ 12 ∧ 1 ≤ d ∧ d ≤ monthLen y m := by
  simp only [parseFmtDMY, Option.bind_eq_bind, Option.bind_eq_some] at h
  obtain ⟨⟨d1, r1⟩, hd, h⟩ := h
  obtain ⟨r2, hs1, h⟩ := h
  obtain ⟨⟨m1, r3⟩, hm, h⟩ := h
  obtain ⟨r4, hs2, h⟩ := h
  obtain ⟨⟨y1, r5⟩, hy, h⟩ := h
  split_ifs at h with h5
  obtain ⟨hy2, hm2, hd2, hy1', hdm⟩ := mkYMD_eq_some h
  subst hy2
  subst hm2
  subst hd2
  have hyb := fieldYear_bounds hy
  have hmb := fieldSmall_bounds hm
  have hdb := fieldSmall_bounds hd
  exact ⟨hy1', hyb, hmb.1, hmb.2, hdb.1, hdm⟩

theorem parseFmtMDY_bounds {sep : Char} {cs : List Char} {y m d : Nat}
    (h : parseFmtMDY sep cs = some (y, m, d)) :
    1 ≤ y ∧ y < 10000 ∧ 1 ≤ m ∧ m ≤ 12 ∧ 1 ≤ d ∧ d ≤ monthLen y m := by
  simp only [parseFmtMDY, Option.bind_eq_bind, Option.bind_eq_some] at h
  obtain ⟨⟨m1, r1⟩, hm, h⟩ := h
  obtain ⟨r2, hs1, h⟩ := h
  obtain ⟨⟨d1, r3⟩, hd, h⟩ := h
  obtain ⟨r4, hs2, h⟩ := h
  obtain ⟨⟨y1, r5⟩, hy, h⟩ := h
  split_ifs at h with h5
  obtain ⟨hy2, hm2, hd2, hy1', hdm⟩ := mkYMD_eq_some h
  subst hy2
  subst hm2
  subst hd2
  have hyb := fieldYear_bounds hy
  have hmb := fieldSmall_bounds hm
  have hdb := fieldSmall_bounds hd
  exact ⟨hy1', hyb, hmb.1, hmb.2, hdb.1, hdm⟩

theorem tryFormats_bounds {s : String} {y m d : Nat}
    (h : tryFormats s = some (y, m, d)) :
    1 ≤ y ∧ y < 10000 ∧ 1 ≤ m ∧ m ≤ 12 ∧ 1 ≤ d ∧ d ≤ monthLen y m := by
  unfold tryFormats at h
  rcases h1 : parseFmtYMD s.data with _ | v
  case some =>
    rw [h1] at h
    simp only [Option.orElse] at h
    rw [h] at h1
    exact parseFmtYMD_bounds h1
  rw [h1] at h
  simp only [Option.orElse] at h
  rcases h2 : parseFmtDMY '/' s.data with _ | v
  case some =>
    rw [h2] at h
    simp only [Option.orElse] at h
    rw [h] at h2
    exact parseFmtDMY_bounds h2
  rw [h2] at h
  simp only [Option.orElse] at h
  rcases h3 : parseFmtMDY '/' s.data with _ | v
  case some =>
    rw [h3] at h
    simp only [Option.orElse] at h
    rw [h] at h3
    exact parseFmtMDY_bounds h3
  rw [h3] at h
  simp only [Option.orElse] at h
  rcases h4 : parseFmtDMY '-' s.data with _ | v
  case some =>
    rw [h4] at h
    simp only [Option.orElse] at h
    rw [h] at h4
    exact parseFmtDMY_bounds h4
  rw [h4] at h
  simp only [Option.orElse] at h
  exact parseFmtMDY_bounds h

theorem tryFormats_fmtDate {y m d : Nat} (hy1 : 1 ≤ y) (hy : y < 10000)
    (hm1 : 1 ≤ m) (hm : m ≤ 12) (hd1 : 1 ≤ d) (hd : d ≤ monthLen y m) :
    tryFormats (fmtDate y m d) = some (y, m, d) := by
  unfold tryFormats
  rw [parseFmtYMD_fmtDate hy1 hy hm1 hm hd1 hd]
  rfl

/-! ## Lemmas: stripping and `_normalize_date` -/

theorem dropWhile_eq_self_of_head {p : Char → Bool} {l : List Char}
    (h : ∀ c ∈ l, p c = false) : l.dropWhile p = l := by
  cases l with
  | nil => rfl
  | cons a t => simp [List.dropWhile_cons, h a (by simp)]

theorem stripL_eq_self {l : List Char} (h : ∀ c ∈ l, pyWs c = false) :
    stripL l = l := by
  unfold stripL
  rw [dropWhile_eq_self_of_head h,
    dropWhile_eq_self_of_head (fun c hc => h c (by simpa using hc)),
    List.reverse_reverse]

theorem fmtDate_data_chars {y m d : Nat} (hy : y < 10000) (hm : m < 100)
    (hd : d < 100) : ∀ c ∈ (fmtDate y m d).data, c.isDigit = true ∨ c = '-' := by
  intro c hc
  have hdata : (fmtDate y m d).data =
      fmtNum 4 y ++ '-' :: (fmtNum 2 m ++ '-' :: fmtNum 2 d) := rfl
  rw [hdata] at hc
  obtain ⟨-, hy4, -⟩ := fmtNum_spec 4 y (by simpa using hy) (by norm_num)
  obtain ⟨-, hm2, -⟩ := fmtNum_spec 2 m (by simpa using hm) (by norm_num)
  obtain ⟨-, hd2, -⟩ := fmtNum_spec 2 d (by simpa using hd) (by norm_num)
  simp only [List.mem_append, List.mem_cons] at hc
  rcases hc with hc | rfl | hc | rfl | hc
  · exact Or.inl (hy4 c hc)
  · exact Or.inr rfl
  · exact Or.inl (hm2 c hc)
  · exact Or.inr rfl
  · exact Or.inl (hd2 c hc)

theorem pyStrip_fmtDate {y m d : Nat} (hy : y < 10000) (hm : m < 100)
    (hd : d < 100) : pyStrip (fmtDate y m d) = fmtDate y m d := by
  unfold pyStrip
  rw [stripL_eq_self]
  · intro c hc
    rcases fmtDate_data_chars hy hm hd c hc with hdig | rfl
    · exact isDigit_not_pyWs hdig
    · decide

theorem fmtDate_ne_empty (y m d : Nat) : fmtDate y m d ≠ "" := by
  unfold fmtDate
  intro hcon
  have hd : (fmtNum 4 y ++ '-' :: (fmtNum 2 m ++ '-' :: fmtNum 2 d)) =
      ([] : List Char) := congrArg String.data hcon
  simp at hd

theorem normalize_date_parse (env : Env) {s : String} {y m d : Nat} (hne : s ≠ "")
    (h : tryFormats (pyStrip s) = some (y, m, d)) :
    normalize_date env s = fmtDate y m d := by
  simp only [normalize_date, if_neg hne, h]

/-! ## Claim C9 -/

/-- C9: for every date string that parses under one of the five accepted
formats (`YYYY-MM-DD`, `DD/MM/YYYY`, `MM/DD/YYYY`, `DD-MM-YYYY`,
`MM-DD-YYYY`), `_normalize_date` is idempotent: applying it to its own
output yields the same value. -/
theorem c9_normalize_date_idempotent (env : Env) (s : String)
    (h : (tryFormats (pyStrip s)).isSome = true) :
    normalize_date env (normalize_date env s) = normalize_date env s := by
  have hne : s ≠ "" := by
    rintro rfl
    exact absurd h (by decide)
  obtain ⟨⟨y, m, d⟩, hp⟩ := Option.isSome_iff_exists.mp h
  obtain ⟨hy1, hy, hm1, hm, hd1, hdm⟩ := tryFormats_bounds hp
  have hm99 : m < 100 := by omega
  have hd99 : d < 100 := by have := monthLen_le y m; omega
  have h1 := normalize_date_parse env hne hp
  have h2 : tryFormats (pyStrip (fmtDate y m d)) = some (y, m, d) := by
    rw [pyStrip_fmtDate hy hm99 hd99]
    exact tryFormats_fmtDate hy1 hy hm1 hm hd1 hdm
  rw [h1, normalize_date_parse env (fmtDate_ne_empty y m d) h2]

/-- Witness for C9 at the concrete input `"15/03/2024"`. -/
theorem c9_witness :
    (tryFormats (pyStrip "15/03/2024")).isSome = true ∧
    normalize_date envSingle (normalize_date envSingle "15/03/2024") =
      normalize_date envSingle "15/03/2024" :=
  ⟨by decide, c9_normalize_date_idempotent envSingle "15/03/2024" (by decide)⟩

/-! ## Claim C8 -/

theorem prefixEq_iff : ∀ l1 l2 : List Char, prefixEq l1 l2 = true ↔ l1 <+: l2 := by
  intro l1
  induction l1 with
  | nil => intro l2; simp [prefixEq]
  | cons a t ih =>
    intro l2
    cases l2 with
    | nil => simp [prefixEq]
    | cons b bs =>
      simp only [prefixEq, Bool.and_eq_true, decide_eq_true_eq, ih bs,
        List.cons_prefix_cons]

theorem suffixEq_iff (suf s : List Char) : suffixEq suf s = true ↔ suf <:+ s := by
  rw [suffixEq, prefixEq_iff, List.reverse_prefix]

/-- C8: `_phone_matches` returns true exactly when the search token is empty,
or the candidate is non-empty and either equals the search or one of the two
strings has length at least 7 and is a suffix of the other; in particular on
`("1234567", "98881234567")` it is true and on `("1234567", "999")` false. -/
theorem c8_phone_matches_spec :
    (∀ search candidate : String, phone_matches search candidate = true ↔
      (search = "" ∨ (candidate ≠ "" ∧ (search = candidate ∨
        (7 ≤ search.length ∧ search.data <:+ candidate.data) ∨
        (7 ≤ candidate.length ∧ candidate.data <:+ search.data))))) ∧
    phone_matches "1234567" "98881234567" = true ∧
    phone_matches "1234567" "999" = false := by
  refine ⟨?_, by decide, by decide⟩
  intro search candidate
  unfold phone_matches
  split_ifs with h1 h2 h3 h4 h5
  · simp [h1]
  · simp [h1, h2]
  · simp only [true_iff]
    exact Or.inr ⟨h2, Or.inl h3⟩
  · simp only [Bool.and_eq_true, decide_eq_true_eq, suffixEq_iff] at h4
    simp only [true_iff]
    exact Or.inr ⟨h2, Or.inr (Or.inl h4)⟩
  · simp only [Bool.and_eq_true, decide_eq_true_eq, suffixEq_iff] at h5
    simp only [true_iff]
    exact Or.inr ⟨h2, Or.inr (Or.inr h5)⟩
  · simp only [Bool.and_eq_true, decide_eq_true_eq, suffixEq_iff] at h4 h5
    simp only [Bool.false_eq_true, false_iff]
    push_neg
    exact ⟨h1, fun _ => ⟨h3, fun hl hsuf => h4 ⟨hl, hsuf⟩,
      fun hl hsuf => h5 ⟨hl, hsuf⟩⟩⟩

/-- Witness for C8: the suffix rule instance from the specification. -/
theorem c8_witness : phone_matches "1234567" "98881234567" = true :=
  c8_phone_matches_spec.2.1

/-! ## Claim C7 -/

/-- C7 (amended): `_normalize_time_bucket` trims surrounding whitespace and
lower-cases its input into `text`, then returns: `morning` when `text`
contains "morning" or "am"; otherwise `afternoon` when it contains
"afternoon", "noon" or "pm"; otherwise `evening` when it contains "evening"
or "night"; otherwise, when an `H[:MM][am|pm]` pattern is present, the
bucket of the 24-hour hour (5-11 morning, 12-16 afternoon, 17-22 evening);
and when no numeric time is found, `text` itself verbatim (the trimmed
lower-cased input, not the merely lower-cased input as originally stated). -/
theorem c7_time_bucket_cases (s : String) :
    (containsAny (pyLower (cellTextS s)) ["morning", "am"] = true →
      normalize_time_bucket s = "morning") ∧
    (containsAny (pyLower (cellTextS s)) ["morning", "am"] = false →
     containsAny (pyLower (cellTextS s)) ["afternoon", "noon", "pm"] = true →
      normalize_time_bucket s = "afternoon") ∧
    (containsAny (pyLower (cellTextS s)) ["morning", "am"] = false →
     containsAny (pyLower (cellTextS s)) ["afternoon", "noon", "pm"] = false →
     containsAny (pyLower (cellTextS s)) ["evening", "night"] = true →
      normalize_time_bucket s = "evening") ∧
    (∀ h mi ap,
     containsAny (pyLower (cellTextS s)) ["morning", "am"] = false →
     containsAny (pyLower (cellTextS s)) ["afternoon", "noon", "pm"] = false →
     containsAny (pyLower (cellTextS s)) ["evening", "night"] = false →
     timeSearch (pyLower (cellTextS s)).data = some (h, mi, ap) →
      ((5 ≤ hour24 h ap ∧ hour24 h ap ≤ 11 → normalize_time_bucket s = "morning") ∧
       (12 ≤ hour24 h ap ∧ hour24 h ap ≤ 16 → normalize_time_bucket s = "afternoon") ∧
       (17 ≤ hour24 h ap ∧ hour24 h ap ≤ 22 → normalize_time_bucket s = "evening"))) ∧
    (containsAny (pyLower (cellTextS s)) ["morning", "am"] = false →
     containsAny (pyLower (cellTextS s)) ["afternoon", "noon", "pm"] = false →
     containsAny (pyLower (cellTextS s)) ["evening", "night"] = false →
     timeSearch (pyLower (cellTextS s)).data = none →
      normalize_time_bucket s = pyLower (cellTextS s)) := by
  by_cases hs : s = ""
  · subst hs
    refine ⟨fun hcon => absurd hcon (by decide), fun _ hcon => absurd hcon (by decide),
      fun _ _ hcon => absurd hcon (by decide), ?_, fun _ _ _ _ => by decide⟩
    intro h mi ap _ _ _ hcon
    rw [show timeSearch (pyLower (cellTextS "")).data = none from by decide] at hcon
    exact absurd hcon (by simp)
  · unfold normalize_time_bucket
    rw [if_neg hs]
    refine ⟨?_, ?_, ?_, ?_, ?_⟩
    · intro h1
      rw [if_pos h1]
    · intro h1 h2
      rw [if_neg (by simp [h1]), if_pos h2]
    · intro h1 h2 h3
      rw [if_neg (by simp [h1]), if_neg (by simp [h2]), if_pos h3]
    · intro h mi ap h1 h2 h3 hts
      rw [if_neg (by simp [h1]), if_neg (by simp [h2]), if_neg (by simp [h3])]
      simp only [hts]
      refine ⟨?_, ?_, ?_⟩
      · intro hr
        rw [if_pos hr]
      · intro hr
        rw [if_neg (by omega), if_pos hr]
      · intro hr
        rw [if_neg (by omega), if_neg (by omega), if_pos hr]
    · intro h1 h2 h3 hts
      rw [if_neg (by simp [h1]), if_neg (by simp [h2]), if_neg (by simp [h3])]
      simp only [hts]

/-- Counterexample for C7 as stated: on `" zz "` (no keyword, no numeric
time) the function returns the trimmed lower-cased text `"zz"`, not the
lower-cased input `" zz "` verbatim. -/
theorem c7_counterexample :
    containsAny (pyLower (cellTextS " zz ")) ["morning", "am"] = false ∧
    containsAny (pyLower (cellTextS " zz ")) ["afternoon", "noon", "pm"] = false ∧
    containsAny (pyLower (cellTextS " zz ")) ["evening", "night"] = false ∧
    timeSearch (pyLower (cellTextS " zz ")).data = none ∧
    normalize_time_bucket " zz " = "zz" ∧
    normalize_time_bucket " zz " ≠ pyLower " zz " := by decide

/-- Witness for C7 at `"see you at 18:30"` (numeric evening bucket) and at
`"9"` (numeric morning bucket). -/
theorem c7_witness :
    normalize_time_bucket "see you at 18:30" = "evening" ∧
    normalize_time_bucket "9" = "morning" :=
  ⟨((c7_time_bucket_cases "see you at 18:30").2.2.2.1 18 30 none (by decide)
      (by decide) (by decide) (by decide)).2.2 (by decide),
   ((c7_time_bucket_cases "9").2.2.2.1 9 0 none (by decide) (by decide) (by decide)
      (by decide)).1 (by decide)⟩

/-! ## Claim C1 -/

/-- C1 (amended): when no search criterion is supplied and additionally
neither the `patient_name` nor the `phone` update field is supplied (the
operation promotes those two update fields into `search_name` /
`search_phone` before the guard), `update_appointment` returns a
`missing_search` result and touches no storage, regardless of the
environment, the ledger contents, and every other update field. -/
theorem c1_missing_search_guard (env : Env) (disk : Option Workbook) (a : UArgs)
    (h1 : a.search_name = "") (h2 : a.search_phone = "") (h3 : a.search_date = "")
    (h4 : a.search_time = "") (h5 : a.patient_name = "") (h6 : a.phone = "") :
    update_appointment env disk a = .ok (.missing_search, disk) := by
  unfold update_appointment promote
  simp [h1, h2, h3, h4, h5, h6]

/-- Counterexample for C1 as stated: with no search criterion supplied but
with the update field `patient_name = "Alice"`, the operation does not
return `missing_search` — the update field is promoted into a search name
(here, with no ledger file present, it reports `not_found`). -/
theorem c1_counterexample :
    update_appointment envSingle none argsOnlyPatient =
      .ok (.not_found "missing_workbook", none) ∧
    ∀ wbF, update_appointment envSingle none argsOnlyPatient ≠
      .ok (.missing_search, wbF) := by
  have h : update_appointment envSingle none argsOnlyPatient =
      .ok (.not_found "missing_workbook", none) := by decide
  refine ⟨h, fun wbF hcon => ?_⟩
  rw [h] at hcon
  simp at hcon

/-- Witness for C1 (amended) at a fully empty argument record. -/
theorem c1_witness :
    update_appointment envSingle none argsEmpty = .ok (.missing_search, none) :=
  c1_missing_search_guard envSingle none argsEmpty rfl rfl rfl rfl rfl rfl

/-! ## Claim C5 -/

/-- C5 (amended): `log_appointment` catches storage failures raised during
load or persistence and converts them into structured error results —
`file_locked` for a permission failure, `write_failed` for any other — while
`update_appointment` does not catch them: a storage failure raised during
its load propagates out of the operation uncaught. -/
theorem c5_storage_error_policy :
    (∀ (env : Env) (disk : Option Workbook) (a : LogArgs) (e : StorageErr),
      logFailure env disk = some e →
      log_appointment env disk a = (.error (errReason e) env.path, disk)) ∧
    (∀ (env : Env) (wb : Workbook) (a : UArgs) (e : StorageErr),
      (promote a).search_name ≠ "" → env.loadErr = some e →
      update_appointment env (some wb) a = .error e) := by
  constructor
  · intro env disk a e h
    unfold log_appointment
    rw [h]
  · intro env wb a e hname hload
    unfold update_appointment
    rw [if_neg (fun hc => hname hc.1)]
    simp only [hload]

/-- Counterexample for C5 as stated: when the ledger load raises a
permission failure, `update_appointment` returns no structured result; the
storage failure propagates out uncaught. -/
theorem c5_counterexample :
    update_appointment envLocked (some wbTwo) argsSearchName =
      .error .permissionError := by decide

/-- Witness for C5 (amended): the same locked environment drives
`log_appointment` to a structured `file_locked` result while
`update_appointment` propagates the failure. -/
theorem c5_witness :
    log_appointment envLocked (some wbTwo) logArgsB =
      (.error (errReason .permissionError) envLocked.path, some wbTwo) ∧
    update_appointment envLocked (some wbTwo) argsSearchName =
      .error .permissionError :=
  ⟨c5_storage_error_policy.1 envLocked (some wbTwo) logArgsB .permissionError rfl,
   c5_storage_error_policy.2 envLocked wbTwo argsSearchName .permissionError
     (by decide) rfl⟩

/-! ## Lemmas: insertion-ordered dictionaries -/

theorem alGet_alSet_self {α : Type} (m : List (String × α)) (k : String) (v : α) :
    alGet (alSet m k v) k = some v := by
  induction m with
  | nil => simp [alSet, alGet]
  | cons p rest ih =>
    by_cases h : p.1 = k
    · simp [alSet, h, alGet]
    · simp [alSet, h, alGet, ih]

theorem alGet_alSet_ne {α : Type} {m : List (String × α)} {k k2 : String} {v : α}
    (h : k2 ≠ k) : alGet (alSet m k v) k2 = alGet m k2 := by
  induction m with
  | nil => simp [alSet, alGet, Ne.symm h]
  | cons p rest ih =>
    by_cases hp : p.1 = k
    · subst hp
      simp [alSet, alGet, Ne.symm h]
    · simp [alSet, hp, alGet, ih]

theorem alGet_ite {α : Type} (c : Prop) [Decidable c] (m1 m2 : List (String × α))
    (k : String) : alGet (if c then m1 else m2) k =
      if c then alGet m1 k else alGet m2 k := by
  split_ifs <;> rfl

theorem mergeUpdates_get_LA (env : Env) (a : UArgs) (rv : RowMap) :
    alGet (mergeUpdates env a rv) "Logged At" = alGet rv "Logged At" := by
  unfold mergeUpdates
  simp only [alGet_ite,
    alGet_alSet_ne (show "Logged At" ≠ "Action" from by decide),
    alGet_alSet_ne (show "Logged At" ≠ "Patient Name" from by decide),
    alGet_alSet_ne (show "Logged At" ≠ "Patient Age or DOB" from by decide),
    alGet_alSet_ne (show "Logged At" ≠ "Phone" from by decide),
    alGet_alSet_ne (show "Logged At" ≠ "Department or Doctor" from by decide),
    alGet_alSet_ne (show "Logged At" ≠ "Reason" from by decide),
    alGet_alSet_ne (show "Logged At" ≠ "Preferred Date" from by decide),
    alGet_alSet_ne (show "Logged At" ≠ "Preferred Time" from by decide),
    alGet_alSet_ne (show "Logged At" ≠ "Visit Type" from by decide),
    alGet_alSet_ne (show "Logged At" ≠ "Existing Appointment" from by decide),
    alGet_alSet_ne (show "Logged At" ≠ "Notes" from by decide), ite_self]

theorem mergeUpdates_get_EA (env : Env) (a : UArgs) (rv : RowMap) :
    alGet (mergeUpdates env a rv) "Existing Appointment" =
      (if effectiveExisting a (cellTextS a.action) rv = "" then
        alGet rv "Existing Appointment"
      else some (some (effectiveExisting a (cellTextS a.action) rv))) := by
  unfold mergeUpdates
  simp only [alGet_ite,
    alGet_alSet_ne (show "Existing Appointment" ≠ "Action" from by decide),
    alGet_alSet_ne (show "Existing Appointment" ≠ "Patient Name" from by decide),
    alGet_alSet_ne (show "Existing Appointment" ≠ "Patient Age or DOB" from by decide),
    alGet_alSet_ne (show "Existing Appointment" ≠ "Phone" from by decide),
    alGet_alSet_ne (show "Existing Appointment" ≠ "Department or Doctor" from by decide),
    alGet_alSet_ne (show "Existing Appointment" ≠ "Reason" from by decide),
    alGet_alSet_ne (show "Existing Appointment" ≠ "Preferred Date" from by decide),
    alGet_alSet_ne (show "Existing Appointment" ≠ "Preferred Time" from by decide),
    alGet_alSet_ne (show "Existing Appointment" ≠ "Visit Type" from by decide),
    alGet_alSet_ne (show "Existing Appointment" ≠ "Notes" from by decide),
    alGet_alSet_self, ite_self]

theorem mergeUpdates_get_PD (env : Env) (a : UArgs) (rv : RowMap) :
    alGet (mergeUpdates env a rv) "Preferred Date" =
      (if a.preferred_date = "" then alGet rv "Preferred Date"
      else some (some (orS (normalize_date env a.preferred_date) a.preferred_date))) := by
  unfold mergeUpdates
  simp only [alGet_ite,
    alGet_alSet_ne (show "Preferred Date" ≠ "Action" from by decide),
    alGet_alSet_ne (show "Preferred Date" ≠ "Patient Name" from by decide),
    alGet_alSet_ne (show "Preferred Date" ≠ "Patient Age or DOB" from by decide),
    alGet_alSet_ne (show "Preferred Date" ≠ "Phone" from by decide),
    alGet_alSet_ne (show "Preferred Date" ≠ "Department or Doctor" from by decide),
    alGet_alSet_ne (show "Preferred Date" ≠ "Reason" from by decide),
    alGet_alSet_ne (show "Preferred Date" ≠ "Preferred Time" from by decide),
    alGet_alSet_ne (show "Preferred Date" ≠ "Visit Type" from by decide),
    alGet_alSet_ne (show "Preferred Date" ≠ "Existing Appointment" from by decide),
    alGet_alSet_ne (show "Preferred Date" ≠ "Notes" from by decide),
    alGet_alSet_self, ite_self]

/-! ## Claim C4 -/

/-- C4: on a reschedule, when no explicit `existing_appointment` was supplied
and the matched row's Existing Appointment text is empty, the merged row's
Existing Appointment becomes the snapshot synthesized from the row's
pre-update Preferred Date and Preferred Time (space-joined, empty parts
omitted) — even while a supplied `preferred_date` overwrites the Preferred
Date field; when a value was supplied, or the row already has one, no
snapshot is synthesized. -/
theorem c4_reschedule_snapshot (env : Env) (a : UArgs) (rv : RowMap)
    (hact : startsWithResched (cellTextS a.action) = true) :
    (a.existing_appointment = "" →
      cellTextOpt (alGet rv "Existing Appointment") = "" → snapshotOf rv ≠ "" →
      alGet (mergeUpdates env a rv) "Existing Appointment" =
        some (some (snapshotOf rv))) ∧
    (a.existing_appointment = "" →
      cellTextOpt (alGet rv "Existing Appointment") = "" → snapshotOf rv = "" →
      alGet (mergeUpdates env a rv) "Existing Appointment" =
        alGet rv "Existing Appointment") ∧
    (a.existing_appointment ≠ "" →
      alGet (mergeUpdates env a rv) "Existing Appointment" =
        some (some a.existing_appointment)) ∧
    (a.existing_appointment = "" →
      cellTextOpt (alGet rv "Existing Appointment") ≠ "" →
      alGet (mergeUpdates env a rv) "Existing Appointment" =
        alGet rv "Existing Appointment") ∧
    (a.preferred_date ≠ "" →
      alGet (mergeUpdates env a rv) "Preferred Date" =
        some (some (orS (normalize_date env a.preferred_date) a.preferred_date))) := by
  refine ⟨?_, ?_, ?_, ?_, ?_⟩
  · intro h1 h2 h3
    rw [mergeUpdates_get_EA,
      show effectiveExisting a (cellTextS a.action) rv = snapshotOf rv from by
        unfold effectiveExisting; rw [if_pos ⟨h1, hact, h2, h3⟩],
      if_neg h3]
  · intro h1 h2 h3
    rw [mergeUpdates_get_EA,
      show effectiveExisting a (cellTextS a.action) rv = "" from by
        unfold effectiveExisting
        rw [if_neg (fun hc => hc.2.2.2 h3)]
        exact h1,
      if_pos rfl]
  · intro h1
    rw [mergeUpdates_get_EA,
      show effectiveExisting a (cellTextS a.action) rv = a.existing_appointment from by
        unfold effectiveExisting; rw [if_neg (fun hc => h1 hc.1)],
      if_neg h1]
  · intro h1 h2
    rw [mergeUpdates_get_EA,
      show effectiveExisting a (cellTextS a.action) rv = "" from by
        unfold effectiveExisting
        rw [if_neg (fun hc => h2 hc.2.2.1)]
        exact h1,
      if_pos rfl]
  · intro h1
    rw [mergeUpdates_get_PD, if_neg h1]

/-- Witness for C4: a reschedule of the Alice row synthesizes the snapshot
`"2026-03-01 morning"` from the row's prior date and time. -/
theorem c4_witness :
    alGet (mergeUpdates envSingle argsResched (rvOfRow rowAlice1))
      "Existing Appointment" = some (some (snapshotOf (rvOfRow rowAlice1))) :=
  (c4_reschedule_snapshot envSingle argsResched (rvOfRow rowAlice1) (by decide)).1
    rfl (by decide) (by decide)

/-! ## Claim C2 -/

/-- C2: when the scan finds more than one candidate row, then (1) if neither
`search_date` nor `search_time` was supplied, `update_appointment` returns
`multiple_matches` carrying at most the first 10 candidates' identifying
fields (sheet, row, patient name, phone, preferred date, preferred time,
existing appointment — see `matchEntry`) and persists nothing: the ledger on
disk is returned unchanged; (2) if `search_date` or `search_time` was
supplied, it proceeds to update the first candidate in scan order. -/
theorem c2_multiple_matches (env : Env) (wb0 wb1 : Workbook) (a : UArgs)
    (c1 c2 : Cand) (rest : List Cand)
    (hguard : ¬((promote a).search_name = "" ∧ (promote a).search_phone = "" ∧
      (promote a).search_date = "" ∧ (promote a).search_time = ""))
    (hload : env.loadErr = none)
    (hscan : scanPhase env wb0 (promote a) = (wb1, c1 :: c2 :: rest)) :
    ((promote a).search_date = "" → (promote a).search_time = "" →
      update_appointment env (some wb0) a =
        .ok (.multiple_matches (((c1 :: c2 :: rest).take 10).map matchEntry),
          some wb0)) ∧
    ((promote a).search_date ≠ "" ∨ (promote a).search_time ≠ "" →
      update_appointment env (some wb0) a = applyUpdate env (promote a) wb1 c1) := by
  constructor
  · intro hd ht
    simp only [update_appointment, if_neg hguard, hload, hscan, resolvePhase]
    rw [if_pos ⟨by simp, hd, ht⟩]
  · intro hdt
    simp only [update_appointment, if_neg hguard, hload, hscan, resolvePhase]
    rw [if_neg (fun hc => hdt.elim (fun h => h hc.2.1) (fun h => h hc.2.2))]

/-- Witness for C2: two Alice rows and a name-only search produce exactly the
two-entry `multiple_matches` result with the ledger unchanged. -/
theorem c2_witness :
    update_appointment envSingle (some wbTwo) argsSearchName =
      .ok (.multiple_matches (([candTwoA, candTwoB].take 10).map matchEntry),
        some wbTwo) :=
  (c2_multiple_matches envSingle wbTwo wbTwo argsSearchName candTwoA candTwoB []
    (by decide) rfl (by decide)).1 rfl rfl

/-! ## Lemmas: workbook operations -/

theorem getSheet_name (wb : Workbook) (n : String) : (wb.getSheet n).name = n := by
  unfold Workbook.getSheet
  cases hf : wb.sheets.find? (fun t => decide (t.name = n)) with
  | none => rfl
  | some t =>
    have ht := List.find?_some hf
    simp only [decide_eq_true_eq] at ht
    simp [ht]

theorem find_set_self (l : List Sheet) (s : Sheet) (h : s.name ∈ l.map Sheet.name) :
    (l.map (fun t => if t.name = s.name then s else t)).find?
      (fun t => decide (t.name = s.name)) = some s := by
  induction l with
  | nil => simp at h
  | cons t rest ih =>
    by_cases ht : t.name = s.name
    · simp [List.find?, ht]
    · have h2 : s.name ∈ rest.map Sheet.name := by
        simp only [List.map_cons, List.mem_cons] at h
        exact h.resolve_left (fun hc => ht hc.symm)
      simp [List.find?, ht, ih h2]

theorem getSheet_setSheet_self (wb : Workbook) (s : Sheet)
    (h : s.name ∈ wb.sheetnames) : (wb.setSheet s).getSheet s.name = s := by
  unfold Workbook.setSheet Workbook.getSheet
  rw [find_set_self wb.sheets s h]
  rfl

theorem getSheet_setSheet_self_of_name (wb : Workbook) (s : Sheet) (n : String)
    (hn : s.name = n) (h : n ∈ wb.sheetnames) : (wb.setSheet s).getSheet n = s := by
  subst hn
  exact getSheet_setSheet_self wb s h

theorem find_set_ne (l : List Sheet) (s : Sheet) (n : String) (h : n ≠ s.name) :
    (l.map (fun t => if t.name = s.name then s else t)).find?
      (fun t => decide (t.name = n)) = l.find? (fun t => decide (t.name = n)) := by
  induction l with
  | nil => rfl
  | cons t rest ih =>
    by_cases ht : t.name = s.name
    · have hs : ¬s.name = n := fun hc => h hc.symm
      have htn : ¬t.name = n := fun hc => h (ht ▸ hc).symm
      simp [List.find?, ht, hs, htn, ih]
    · by_cases htn : t.name = n
      · rw [List.map_cons, if_neg ht, List.find?_cons_of_pos _ (by simpa using htn),
          List.find?_cons_of_pos _ (by simpa using htn)]
      · rw [List.map_cons, if_neg ht, List.find?_cons_of_neg _ (by simpa using htn),
          List.find?_cons_of_neg _ (by simpa using htn), ih]

theorem getSheet_setSheet_ne (wb : Workbook) (s : Sheet) (n : String)
    (h : n ≠ s.name) : (wb.setSheet s).getSheet n = wb.getSheet n := by
  unfold Workbook.setSheet Workbook.getSheet
  rw [find_set_ne wb.sheets s n h]

theorem sheetnames_setSheet (wb : Workbook) (s : Sheet) :
    (wb.setSheet s).sheetnames = wb.sheetnames := by
  unfold Workbook.setSheet Workbook.sheetnames
  rw [List.map_map]
  apply List.map_congr_left
  intro t _
  by_cases h : t.name = s.name
  · simp [h]
  · simp [h]

theorem sheetnames_createSheet (wb : Workbook) (m : String) :
    (wb.createSheet m).sheetnames = wb.sheetnames ++ [m] := by
  unfold Workbook.createSheet Workbook.sheetnames
  simp

theorem getSheet_createSheet_ne (wb : Workbook) (m n : String) (h : n ≠ m) :
    (wb.createSheet m).getSheet n = wb.getSheet n := by
  unfold Workbook.createSheet Workbook.getSheet
  rw [List.find?_append]
  cases hf : wb.sheets.find? (fun t => decide (t.name = n)) with
  | some t => simp [Option.or]
  | none =>
    have hmn : ¬m = n := fun hc => h hc.symm
    simp [Option.or, List.find?, hmn]

theorem getSheet_createSheet_self (wb : Workbook) (m : String)
    (h : m ∉ wb.sheetnames) : (wb.createSheet m).getSheet m = ⟨m, []⟩ := by
  unfold Workbook.createSheet Workbook.getSheet
  rw [List.find?_append]
  have hf : wb.sheets.find? (fun t => decide (t.name = m)) = none := by
    rw [List.find?_eq_none]
    intro t ht
    simp only [decide_eq_true_eq]
    intro hc
    exact h (hc ▸ List.mem_map_of_mem Sheet.name ht)
  simp [hf, Option.or, List.find?]

theorem appendRow_getLast (s : Sheet) (row : List Cell) :
    (s.appendRow row).cells.getLast? = some row := by
  simp [Sheet.appendRow, List.getLast?_concat]

theorem foldl_setCell_name (l : List (Nat × String)) (s : Sheet) :
    (l.foldl (fun sh p => sh.setCell 1 (p.1 + 1) (some p.2)) s).name = s.name := by
  induction l generalizing s with
  | nil => rfl
  | cons p rest ih => simpa using ih (s.setCell 1 (p.1 + 1) (some p.2))

theorem appendMissing_name : ∀ (names : List String) (m : HeaderMap) (last : Nat)
    (s : Sheet), ((appendMissing names m last s).2).name = s.name := by
  intro names
  induction names with
  | nil => intro m last s; rfl
  | cons n rest ih =>
    intro m last s
    unfold appendMissing
    by_cases h : alHasKey m n = true
    · rw [if_pos h]
      exact ih m last s
    · rw [if_neg h]
      exact ih (alSet m n (last + 1)) (last + 1) (s.setCell 1 (last + 1) (some n))

theorem ensure_name (s : Sheet) : (ensure_sheet_headers s).2.name = s.name := by
  unfold ensure_sheet_headers
  by_cases h : s.maxRow = 1 ∧ s.maxCol = 1 ∧ (headerCellsList s).getD 0 none = none
  · simp only [if_pos h]
    exact foldl_setCell_name APPOINTMENTS_HEADERS.enum s
  · simp only [if_neg h]
    exact appendMissing_name APPOINTMENTS_HEADERS _ _ s

/-! ## Claim C3 -/

theorem deleteRow_name (s : Sheet) (idx : Nat) : (s.deleteRow idx).name = s.name := rfl

theorem appendRow_name (s : Sheet) (row : List Cell) :
    (s.appendRow row).name = s.name := rfl

/-- C3: for a successful update, under date-sharded routing a reschedule
supplying a new preferred date whose (non-empty) normalized sheet name
differs from the matched row's sheet relocates the record: the result
reports `moved = true` with the destination sheet, the merged row sits
appended at the end of the destination worksheet (created and reconciled if
needed), and the matched row is deleted from the source worksheet; under
single-sheet routing relocation never occurs: the row is updated in place in
its own sheet and the result reports `moved = false`. -/
theorem c3_relocation_policy (env : Env) (a : UArgs) (wb1 : Workbook) (c : Cand)
    (hmem : c.sheet ∈ wb1.sheetnames) (hsave : env.saveErr = none) :
    ((useSingle env = false →
      startsWithResched (cellTextS a.action) = true →
      a.preferred_date ≠ "" →
      safe_sheet_name (normalize_date env a.preferred_date) ≠ "" →
      safe_sheet_name (normalize_date env a.preferred_date) ≠ c.sheet →
      ∃ wbF,
        applyUpdate env a wb1 c =
          .ok (.updated env.path (safe_sheet_name (normalize_date env a.preferred_date))
            true, some wbF) ∧
        (wbF.getSheet (safe_sheet_name (normalize_date env a.preferred_date))).cells.getLast? =
          some (targetRow (mergeUpdates env a c.rv)) ∧
        wbF.getSheet c.sheet =
          ((ensure_sheet_headers (wb1.getSheet c.sheet)).2).deleteRow c.row) ∧
     (useSingle env = true →
      ∃ wbF,
        applyUpdate env a wb1 c = .ok (.updated env.path c.sheet false, some wbF) ∧
        wbF.sheetnames = wb1.sheetnames)) := by
  constructor
  · intro hsingle hact hpd hne hnsn
    have hnew : newSheetName env a c.sheet =
        safe_sheet_name (normalize_date env a.preferred_date) := by
      simp only [newSheetName]
      rw [if_pos ⟨hsingle, hpd, hact⟩]
      unfold orS
      rw [if_neg hne]
    refine ⟨relocate (wb1.setSheet (ensure_sheet_headers (wb1.getSheet c.sheet)).2)
      (safe_sheet_name (normalize_date env a.preferred_date)) c
      (mergeUpdates env a c.rv), ?_, ?_, ?_⟩
    · simp only [applyUpdate, hnew]
      rw [if_pos hnsn, hsave, decide_eq_true hnsn]
    · generalize hharg : safe_sheet_name (normalize_date env a.preferred_date) = nsn at hnsn hne
      generalize huv : mergeUpdates env a c.rv = uv
      generalize hwb2 : wb1.setSheet (ensure_sheet_headers (wb1.getSheet c.sheet)).2 = wb2
      have hmem2 : c.sheet ∈ wb2.sheetnames := by
        rw [← hwb2, sheetnames_setSheet]
        exact hmem
      unfold relocate
      have hmem3 : nsn ∈ (if nsn ∈ wb2.sheetnames then wb2
          else wb2.createSheet nsn).sheetnames := by
        split_ifs with hin
        · exact hin
        · rw [sheetnames_createSheet]
          simp
      set wb3 := if nsn ∈ wb2.sheetnames then wb2 else wb2.createSheet nsn with hwb3
      set tgt := ((ensure_sheet_headers (wb3.getSheet nsn)).2).appendRow (targetRow uv)
        with htgt
      have htname : tgt.name = nsn := by
        rw [htgt, appendRow_name, ensure_name, getSheet_name]
      have hsrcname : ((wb3.setSheet tgt).getSheet c.sheet).name = c.sheet :=
        getSheet_name _ _
      rw [getSheet_setSheet_ne _ _ _ (by rw [deleteRow_name, hsrcname]; exact hnsn),
        getSheet_setSheet_self_of_name wb3 tgt nsn htname hmem3, htgt, appendRow_getLast]
    · generalize hharg : safe_sheet_name (normalize_date env a.preferred_date) = nsn at hnsn hne
      generalize huv : mergeUpdates env a c.rv = uv
      have hes : (ensure_sheet_headers (wb1.getSheet c.sheet)).2.name = c.sheet := by
        rw [ensure_name, getSheet_name]
      have hwb2get : (wb1.setSheet (ensure_sheet_headers (wb1.getSheet c.sheet)).2).getSheet
          c.sheet = (ensure_sheet_headers (wb1.getSheet c.sheet)).2 :=
        getSheet_setSheet_self_of_name wb1 _ c.sheet hes hmem
      set wb2 := wb1.setSheet (ensure_sheet_headers (wb1.getSheet c.sheet)).2 with hwb2
      have hmem2 : c.sheet ∈ wb2.sheetnames := by
        rw [hwb2, sheetnames_setSheet]
        exact hmem
      unfold relocate
      set wb3 := if nsn ∈ wb2.sheetnames then wb2 else wb2.createSheet nsn with hwb3
      set tgt := ((ensure_sheet_headers (wb3.getSheet nsn)).2).appendRow (targetRow uv)
        with htgt
      have htname : tgt.name = nsn := by
        rw [htgt, appendRow_name, ensure_name, getSheet_name]
      have hwb3get : wb3.getSheet c.sheet = (ensure_sheet_headers (wb1.getSheet c.sheet)).2 := by
        rw [hwb3]
        split_ifs with hin
        · exact hwb2get
        · rw [getSheet_createSheet_ne wb2 nsn c.sheet (Ne.symm hnsn)]
          exact hwb2get
      have hmem4 : c.sheet ∈ (wb3.setSheet tgt).sheetnames := by
        rw [sheetnames_setSheet, hwb3]
        split_ifs with hin
        · exact hmem2
        · rw [sheetnames_createSheet]
          exact List.mem_append_left _ hmem2
      have hsrc : (wb3.setSheet tgt).getSheet c.sheet =
          (ensure_sheet_headers (wb1.getSheet c.sheet)).2 := by
        rw [getSheet_setSheet_ne _ _ _ (by rw [htname]; exact Ne.symm hnsn), hwb3get]
      have hdelname : (((wb3.setSheet tgt).getSheet c.sheet).deleteRow c.row).name =
          c.sheet := by
        rw [deleteRow_name, getSheet_name]
      rw [getSheet_setSheet_self_of_name _ _ c.sheet hdelname hmem4, hsrc]
  · intro hsingle
    have hnew : newSheetName env a c.sheet = c.sheet := by
      simp only [newSheetName]
      rw [if_neg]
      intro hc
      rw [hsingle] at hc
      exact absurd hc.1 (by simp)
    refine ⟨(wb1.setSheet (ensure_sheet_headers (wb1.getSheet c.sheet)).2).setSheet
      (inPlaceWrite c (mergeUpdates env a c.rv)
        (ensure_sheet_headers (wb1.getSheet c.sheet)).1
        ((wb1.setSheet (ensure_sheet_headers (wb1.getSheet c.sheet)).2).getSheet c.sheet)),
      ?_, ?_⟩
    · simp only [applyUpdate, hnew]
      rw [if_neg (fun hc => hc rfl), hsave, decide_eq_false (fun hc => hc rfl)]
    · rw [sheetnames_setSheet, sheetnames_setSheet]

/-- Witness for C3: rescheduling the Alice row from shard `2026-03-01` to
`2026-03-05` under date-sharded routing moves the merged row. -/
theorem c3_witness :
    ∃ wbF,
      applyUpdate envSharded argsResched wbOne candMove =
        .ok (.updated envSharded.path
          (safe_sheet_name (normalize_date envSharded argsResched.preferred_date))
          true, some wbF) ∧
      (wbF.getSheet
        (safe_sheet_name (normalize_date envSharded argsResched.preferred_date))).cells.getLast? =
        some (targetRow (mergeUpdates envSharded argsResched candMove.rv)) ∧
      wbF.getSheet candMove.sheet =
        ((ensure_sheet_headers (wbOne.getSheet candMove.sheet)).2).deleteRow
          candMove.row :=
  (c3_relocation_policy envSharded argsResched wbOne candMove (by decide) rfl).1
    (by decide) (by decide) (by decide) (by decide) (by decide)

/-! ## Lemmas: grid cells and schema reconciliation -/

theorem getD_replicate_self {α : Type} (k j : Nat) (d : α) :
    (List.replicate k d).getD j d = d := by
  rw [List.getD_eq_getElem?_getD, List.getElem?_replicate]
  split_ifs <;> rfl

theorem getD_padTo {α : Type} (l : List α) (n : Nat) (d : α) (i : Nat) :
    (padTo l n d).getD i d = l.getD i d := by
  unfold padTo
  by_cases h : i < l.length
  · rw [List.getD_append _ _ _ _ h]
  · rw [List.getD_append_right _ _ _ _ (by omega), getD_replicate_self,
      List.getD_eq_default _ _ (by omega)]

theorem cellVal_setCell_ne (s : Sheet) {r c r2 c2 : Nat} (v : Cell)
    (hr : 1 ≤ r) (hr2 : 1 ≤ r2) (hc : 1 ≤ c) (hc2 : 1 ≤ c2)
    (h : r ≠ r2 ∨ c ≠ c2) :
    (s.setCell r c v).cellVal r2 c2 = s.cellVal r2 c2 := by
  simp only [Sheet.setCell, Sheet.cellVal]
  by_cases hrr : r = r2
  · subst hrr
    have hcc : c ≠ c2 := h.resolve_left (fun hx => hx rfl)
    have hlen : r - 1 < (padTo s.cells r []).length := by
      unfold padTo
      rw [List.length_append, List.length_replicate]
      omega
    have hA : ((padTo s.cells r []).set (r - 1)
        ((padTo ((padTo s.cells r []).getD (r - 1) []) c none).set (c - 1) v)).getD
          (r - 1) [] =
        (padTo ((padTo s.cells r []).getD (r - 1) []) c none).set (c - 1) v := by
      rw [List.getD_eq_getElem?_getD, List.getElem?_set_self hlen]
      rfl
    rw [hA]
    have hB : ((padTo ((padTo s.cells r []).getD (r - 1) []) c none).set
        (c - 1) v).getD (c2 - 1) none =
        (padTo ((padTo s.cells r []).getD (r - 1) []) c none).getD (c2 - 1) none := by
      rw [List.getD_eq_getElem?_getD,
        List.getElem?_set_ne (by omega : c - 1 ≠ c2 - 1), ← List.getD_eq_getElem?_getD]
    rw [hB, getD_padTo, getD_padTo]
  · have hA : ((padTo s.cells r []).set (r - 1)
        ((padTo ((padTo s.cells r []).getD (r - 1) []) c none).set (c - 1) v)).getD
          (r2 - 1) [] = s.cells.getD (r2 - 1) [] := by
      rw [List.getD_eq_getElem?_getD,
        List.getElem?_set_ne (by omega : r - 1 ≠ r2 - 1), ← List.getD_eq_getElem?_getD,
        getD_padTo]
    rw [hA]

theorem foldl_max_acc_le (l : List (List Cell)) :
    ∀ acc : Nat, acc ≤ l.foldl (fun a r => max a r.length) acc := by
  induction l with
  | nil => intro acc; exact le_refl _
  | cons y t ih => intro acc; exact le_trans (Nat.le_max_left _ _) (ih _)

theorem le_foldl_max (l : List (List Cell)) : ∀ (acc : Nat) (x : List Cell),
    x ∈ l → x.length ≤ l.foldl (fun a r => max a r.length) acc := by
  induction l with
  | nil => intro _ x hx; simp at hx
  | cons y t ih =>
    intro acc x hx
    rcases List.mem_cons.mp hx with rfl | hx
    · exact le_trans (Nat.le_max_right acc x.length) (foldl_max_acc_le t _)
    · exact ih _ x hx

theorem row0_len_le_maxCol (s : Sheet) : (s.cells.getD 0 []).length ≤ s.maxCol := by
  cases hc : s.cells with
  | nil => simp [Sheet.maxCol, hc]
  | cons y t =>
    have hy : y.length ≤ s.cells.foldl (fun a r => max a r.length) 0 := by
      rw [hc]
      exact le_foldl_max (y :: t) 0 y (by simp)
    rw [List.getD_cons_zero]
    exact le_trans hy (by unfold Sheet.maxCol; exact Nat.le_max_right 1 _)

theorem fresh_cells_none {s : Sheet}
    (h : s.maxRow = 1 ∧ s.maxCol = 1 ∧ (headerCellsList s).getD 0 none = none) :
    ∀ i, s.cellVal 1 i = none := by
  obtain ⟨h1, h2, h3⟩ := h
  have hrow : (s.cells.getD 0 []).length ≤ 1 := le_trans (row0_len_le_maxCol s) h2.le
  have h0 : (s.cells.getD 0 []).getD 0 none = none := by
    rw [headerCellsList, getD_padTo] at h3
    exact h3
  intro i
  unfold Sheet.cellVal
  simp only [show (1 : Nat) - 1 = 0 from rfl]
  by_cases hi : i - 1 = 0
  · rw [hi]
    exact h0
  · exact List.getD_eq_default _ _ (by omega)

theorem headerCellsList_fresh {s : Sheet}
    (h : s.maxRow = 1 ∧ s.maxCol = 1 ∧ (headerCellsList s).getD 0 none = none) :
    headerCellsList s = [none] := by
  obtain ⟨h1, h2, h3⟩ := h
  have hrow : (s.cells.getD 0 []).length ≤ 1 := le_trans (row0_len_le_maxCol s) h2.le
  have h0 : (s.cells.getD 0 []).getD 0 none = none := by
    rw [headerCellsList, getD_padTo] at h3
    exact h3
  unfold headerCellsList padTo
  rw [h2]
  cases hc : s.cells.getD 0 [] with
  | nil => rfl
  | cons x t =>
    rw [hc] at hrow h0
    have ht : t = [] := by
      simp only [List.length_cons] at hrow
      exact List.eq_nil_of_length_eq_zero (by omega)
    subst ht
    rw [List.getD_cons_zero] at h0
    subst h0
    rfl

theorem alHasKey_alSet {α : Type} (m : List (String × α)) (k k2 : String) (v : α) :
    alHasKey (alSet m k v) k2 = (alHasKey m k2 || decide (k2 = k)) := by
  by_cases h : k2 = k
  · subst h
    simp [alHasKey, alGet_alSet_self]
  · simp [alHasKey, alGet_alSet_ne h, h]

theorem alHasKey_buildHM : ∀ (cells : List Cell) (idx : Nat) (m : HeaderMap)
    (n : String), alHasKey (buildHM cells idx m) n = true ↔
      (n ∈ cells.filterMap (fun c => c.map cellTextS) ∨ alHasKey m n = true) := by
  intro cells
  induction cells with
  | nil => intro idx m n; simp [buildHM]
  | cons c rest ih =>
    intro idx m n
    cases c with
    | none => simp [buildHM, ih, List.filterMap_cons]
    | some v =>
      simp only [buildHM, ih, List.filterMap_cons, Option.map_some', List.mem_cons,
        alHasKey_alSet, Bool.or_eq_true, decide_eq_true_eq]
      tauto

theorem appendMissing_all_present : ∀ (names : List String) (m : HeaderMap)
    (last : Nat) (s : Sheet), (∀ n ∈ names, alHasKey m n = true) →
    appendMissing names m last s = (m, s) := by
  intro names
  induction names with
  | nil => intro m last s _; rfl
  | cons n rest ih =>
    intro m last s h
    unfold appendMissing
    rw [if_pos (h n (by simp))]
    exact ih m last s (fun x hx => h x (by simp [hx]))

theorem appendMissing_cellVal : ∀ (names : List String) (m : HeaderMap) (last : Nat)
    (s : Sheet) (r i : Nat), 1 ≤ r → 1 ≤ i → i ≤ last →
    ((appendMissing names m last s).2).cellVal r i = s.cellVal r i := by
  intro names
  induction names with
  | nil => intros; rfl
  | cons n rest ih =>
    intro m last s r i hr hi hle
    unfold appendMissing
    by_cases h : alHasKey m n = true
    · rw [if_pos h]
      exact ih m last s r i hr hi hle
    · rw [if_neg h, ih _ _ _ r i hr hi (by omega)]
      exact cellVal_setCell_ne s (some n) (by omega) hr (by omega) hi
        (Or.inr (by omega))

theorem alGet_appendMissing_mono : ∀ (names : List String) (m : HeaderMap)
    (last : Nat) (s : Sheet) (n : String) (p : Nat), alGet m n = some p →
    alGet (appendMissing names m last s).1 n = some p := by
  intro names
  induction names with
  | nil => intro m last s n p h; exact h
  | cons n2 rest ih =>
    intro m last s n p h
    unfold appendMissing
    by_cases hk : alHasKey m n2 = true
    · rw [if_pos hk]
      exact ih m last s n p h
    · rw [if_neg hk]
      refine ih _ _ _ n p ?_
      have hne : n ≠ n2 := by
        intro hc
        subst hc
        rw [alHasKey, h] at hk
        exact hk rfl
      rw [alGet_alSet_ne hne]
      exact h

theorem appendMissing_get_missing : ∀ (names : List String) (m : HeaderMap)
    (last : Nat) (s : Sheet) (n : String), n ∈ names → alHasKey m n = false →
    ∃ p, alGet (appendMissing names m last s).1 n = some p ∧ last < p := by
  intro names
  induction names with
  | nil => intro m last s n hmm; simp at hmm
  | cons n2 rest ih =>
    intro m last s n hmem hmiss
    unfold appendMissing
    by_cases hnn : n = n2
    · subst hnn
      rw [if_neg (by rw [hmiss]; simp)]
      refine ⟨last + 1, ?_, by omega⟩
      exact alGet_appendMissing_mono rest _ (last + 1) _ n (last + 1)
        (alGet_alSet_self m n (last + 1))
    · have hmem2 : n ∈ rest := (List.mem_cons.mp hmem).resolve_left hnn
      by_cases hk : alHasKey m n2 = true
      · rw [if_pos hk]
        exact ih m last s n hmem2 hmiss
      · rw [if_neg hk]
        have hmiss2 : alHasKey (alSet m n2 (last + 1)) n = false := by
          rw [alHasKey_alSet, hmiss]
          simp [hnn]
        obtain ⟨p, hp, hlt⟩ := ih (alSet m n2 (last + 1)) (last + 1) _ n hmem2 hmiss2
        exact ⟨p, hp, by omega⟩

theorem cellVal_ne_none_le {s : Sheet} {i : Nat} (h : s.cellVal 1 i ≠ none) :
    i ≤ (s.cells.getD 0 []).length := by
  by_contra hcon
  push_neg at hcon
  apply h
  unfold Sheet.cellVal
  simp only [show (1 : Nat) - 1 = 0 from rfl]
  exact List.getD_eq_default _ _ (by omega)

theorem row0_le_headerCells (s : Sheet) :
    (s.cells.getD 0 []).length ≤ (headerCellsList s).length := by
  unfold headerCellsList padTo
  rw [List.length_append]
  omega

/-! ## Claim C6 -/

/-- C6: schema reconciliation never alters the position of an existing
non-empty header column — every column of row 1 holding a value keeps that
value; a required field missing from the header row is appended as a new
column strictly after every existing non-empty header cell; and re-running
reconciliation on a worksheet whose header row already contains every
required field changes no cell (the sheet is returned unchanged: no columns
added, no data moved). -/
theorem c6_schema_reconciliation (s : Sheet) :
    (∀ i, 1 ≤ i → s.cellVal 1 i ≠ none →
      ((ensure_sheet_headers s).2).cellVal 1 i = s.cellVal 1 i) ∧
    (∀ name ∈ APPOINTMENTS_HEADERS, name ∉ headerTexts s →
      ∃ p, alGet (ensure_sheet_headers s).1 name = some p ∧
        ∀ i, 1 ≤ i → s.cellVal 1 i ≠ none → i < p) ∧
    ((∀ name ∈ APPOINTMENTS_HEADERS, name ∈ headerTexts s) →
      (ensure_sheet_headers s).2 = s) := by
  by_cases hfresh : s.maxRow = 1 ∧ s.maxCol = 1 ∧
    (headerCellsList s).getD 0 none = none
  · refine ⟨?_, ?_, ?_⟩
    · intro i hi hne
      exact absurd (fresh_cells_none hfresh i) hne
    · intro name hmem hnotin
      have hsome : (alGet initialHeaderMap name).isSome = true := by
        have hall : ∀ n ∈ APPOINTMENTS_HEADERS,
            (alGet initialHeaderMap n).isSome = true := by decide
        exact hall name hmem
      obtain ⟨p, hp⟩ := Option.isSome_iff_exists.mp hsome
      refine ⟨p, ?_, ?_⟩
      · simp only [ensure_sheet_headers, if_pos hfresh]
        exact hp
      · intro i hi hne
        exact absurd (fresh_cells_none hfresh i) hne
    · intro hall
      exfalso
      have h1 := hall "Logged At" (by decide)
      rw [headerTexts, headerCellsList_fresh hfresh] at h1
      simp at h1
  · have hunfold : ensure_sheet_headers s =
        appendMissing APPOINTMENTS_HEADERS (buildHM (headerCellsList s) 1 [])
          (headerCellsList s).length s := by
      simp only [ensure_sheet_headers, if_neg hfresh]
    refine ⟨?_, ?_, ?_⟩
    · intro i hi hne
      rw [hunfold]
      refine appendMissing_cellVal _ _ _ _ 1 i (by norm_num) hi ?_
      have h1 := cellVal_ne_none_le hne
      have h2 := row0_le_headerCells s
      omega
    · intro name hmem hnotin
      have hmiss : alHasKey (buildHM (headerCellsList s) 1 []) name = false := by
        by_contra hcon
        rw [Bool.not_eq_false] at hcon
        rcases (alHasKey_buildHM _ 1 [] name).mp hcon with h | h
        · exact hnotin h
        · simp [alHasKey, alGet] at h
      obtain ⟨p, hp, hlt⟩ :=
        appendMissing_get_missing APPOINTMENTS_HEADERS _ _ s name hmem hmiss
      refine ⟨p, by rw [hunfold]; exact hp, ?_⟩
      intro i hi hne
      have h1 := cellVal_ne_none_le hne
      have h2 := row0_le_headerCells s
      omega
    · intro hall
      rw [hunfold, appendMissing_all_present]
      intro n hn
      exact (alHasKey_buildHM _ 1 [] n).mpr (Or.inl (hall n hn))

/-- Witness for C6: reconciliation is a no-op on a complete sheet, and on a
sparse sheet the missing `Notes` field lands beyond every existing header. -/
theorem c6_witness :
    ((ensure_sheet_headers sheetFull).2 = sheetFull) ∧
    ∃ p, alGet (ensure_sheet_headers sheetSparse).1 "Notes" = some p ∧
      ∀ i, 1 ≤ i → sheetSparse.cellVal 1 i ≠ none → i < p :=
  ⟨(c6_schema_reconciliation sheetFull).2.2 (by decide),
   (c6_schema_reconciliation sheetSparse).2.1 "Notes" (by decide) (by decide)⟩

/-! ## Lemmas: header-map column uniqueness -/

theorem mem_keys_alSet {α : Type} {m : List (String × α)} {k k2 : String} {v : α}
    (h : k2 ∈ (alSet m k v).map Prod.fst) : k2 ∈ m.map Prod.fst ∨ k2 = k := by
  induction m with
  | nil => simpa [alSet] using h
  | cons p rest ih =>
    by_cases hp : p.1 = k
    · rw [alSet, if_pos hp] at h
      simp only [List.map_cons, List.mem_cons] at h ⊢
      tauto
    · rw [alSet, if_neg hp] at h
      simp only [List.map_cons, List.mem_cons] at h ⊢
      rcases h with h | h
      · tauto
      · rcases ih h with h2 | h2 <;> tauto

theorem mem_vals_alSet {α : Type} {m : List (String × α)} {k : String} {v x : α}
    (h : x ∈ (alSet m k v).map Prod.snd) : x ∈ m.map Prod.snd ∨ x = v := by
  induction m with
  | nil => simpa [alSet] using h
  | cons p rest ih =>
    by_cases hp : p.1 = k
    · rw [alSet, if_pos hp] at h
      simp only [List.map_cons, List.mem_cons] at h ⊢
      tauto
    · rw [alSet, if_neg hp] at h
      simp only [List.map_cons, List.mem_cons] at h ⊢
      rcases h with h | h
      · tauto
      · rcases ih h with h2 | h2 <;> tauto

theorem hm_inv_alSet {m : HeaderMap} {k : String} {v b : Nat}
    (hkeys : (m.map Prod.fst).Nodup) (hvals : (m.map Prod.snd).Nodup)
    (hb : ∀ x ∈ m.map Prod.snd, x < b) (hv : b ≤ v) :
    ((alSet m k v).map Prod.fst).Nodup ∧ ((alSet m k v).map Prod.snd).Nodup ∧
      (∀ x ∈ (alSet m k v).map Prod.snd, x < v + 1) := by
  induction m with
  | nil =>
    simp [alSet]
  | cons p rest ih =>
    simp only [List.map_cons, List.nodup_cons] at hkeys hvals
    by_cases hp : p.1 = k
    · rw [alSet, if_pos hp]
      simp only [List.map_cons, List.nodup_cons]
      refine ⟨⟨hp ▸ hkeys.1, hkeys.2⟩, ⟨?_, hvals.2⟩, ?_⟩
      · intro hc
        have := hb v (by simp [hc])
        omega
      · intro x hx
        simp only [List.map_cons, List.mem_cons] at hx
        rcases hx with rfl | hx
        · omega
        · have := hb x (by simp [hx])
          omega
    · rw [alSet, if_neg hp]
      obtain ⟨ihk, ihv, ihb⟩ := ih hkeys.2 hvals.2 (fun x hx => hb x (by simp [hx]))
      simp only [List.map_cons, List.nodup_cons]
      refine ⟨⟨?_, ihk⟩, ⟨?_, ihv⟩, ?_⟩
      · intro hc
        rcases mem_keys_alSet hc with h2 | h2
        · exact hkeys.1 h2
        · exact hp h2
      · intro hc
        rcases mem_vals_alSet hc with h2 | h2
        · exact hvals.1 h2
        · have := hb p.2 (by simp)
          omega
      · intro x hx
        simp only [List.map_cons, List.mem_cons] at hx
        rcases hx with rfl | hx
        · have hpb := hb p.2 (by simp)
          omega
        · exact ihb x hx

theorem buildHM_inv : ∀ (cells : List Cell) (idx : Nat) (m : HeaderMap),
    (m.map Prod.fst).Nodup → (m.map Prod.snd).Nodup →
    (∀ x ∈ m.map Prod.snd, x < idx) →
    ((buildHM cells idx m).map Prod.fst).Nodup ∧
    ((buildHM cells idx m).map Prod.snd).Nodup ∧
    (∀ x ∈ (buildHM cells idx m).map Prod.snd, x < idx + cells.length) := by
  intro cells
  induction cells with
  | nil =>
    intro idx m hk hv hb
    exact ⟨hk, hv, fun x hx => by have := hb x hx; omega⟩
  | cons c rest ih =>
    intro idx m hk hv hb
    cases c with
    | none =>
      simp only [buildHM]
      obtain ⟨h1, h2, h3⟩ := ih (idx + 1) m hk hv (fun x hx => by
        have := hb x hx; omega)
      refine ⟨h1, h2, fun x hx => by have := h3 x hx; simp only [List.length_cons]; omega⟩
    | some v =>
      simp only [buildHM]
      obtain ⟨hk2, hv2, hb2⟩ := hm_inv_alSet hk hv hb (le_refl idx)
      obtain ⟨h1, h2, h3⟩ := ih (idx + 1) _ hk2 hv2 hb2
      refine ⟨h1, h2, fun x hx => by have := h3 x hx; simp only [List.length_cons]; omega⟩

theorem appendMissing_inv : ∀ (names : List String) (m : HeaderMap) (last : Nat)
    (s : Sheet), (m.map Prod.fst).Nodup → (m.map Prod.snd).Nodup →
    (∀ x ∈ m.map Prod.snd, x ≤ last) →
    (((appendMissing names m last s).1).map Prod.fst).Nodup ∧
    (((appendMissing names m last s).1).map Prod.snd).Nodup := by
  intro names
  induction names with
  | nil => intro m last s hk hv _; exact ⟨hk, hv⟩
  | cons n rest ih =>
    intro m last s hk hv hb
    unfold appendMissing
    by_cases h : alHasKey m n = true
    · rw [if_pos h]
      exact ih m last s hk hv hb
    · rw [if_neg h]
      obtain ⟨hk2, hv2, hb2⟩ := hm_inv_alSet hk hv
        (fun x hx => Nat.lt_succ_of_le (hb x hx)) (le_refl (last + 1))
      exact ih _ (last + 1) _ hk2 hv2 (fun x hx => by have := hb2 x hx; omega)

theorem ensure_inv (s : Sheet) :
    (((ensure_sheet_headers s).1).map Prod.fst).Nodup ∧
    (((ensure_sheet_headers s).1).map Prod.snd).Nodup := by
  by_cases hfresh : s.maxRow = 1 ∧ s.maxCol = 1 ∧
    (headerCellsList s).getD 0 none = none
  · simp only [ensure_sheet_headers, if_pos hfresh]
    constructor <;> decide
  · simp only [ensure_sheet_headers, if_neg hfresh]
    obtain ⟨h1, h2, h3⟩ := buildHM_inv (headerCellsList s) 1 [] (by simp) (by simp)
      (by simp)
    exact appendMissing_inv APPOINTMENTS_HEADERS _ _ s h1 h2
      (fun x hx => by have := h3 x hx; omega)

theorem alGet_mem {α : Type} {m : List (String × α)} {k : String} {v : α}
    (h : alGet m k = some v) : (k, v) ∈ m := by
  induction m with
  | nil => simp [alGet] at h
  | cons p rest ih =>
    by_cases hp : p.1 = k
    · rw [alGet, if_pos hp] at h
      simp only [Option.some.injEq] at h
      have hpv : p = (k, v) := Prod.ext hp h
      exact List.mem_cons.mpr (Or.inl hpv.symm)
    · rw [alGet, if_neg hp] at h
      exact List.mem_cons_of_mem p (ih h)

theorem buildHM_vals_pos : ∀ (cells : List Cell) (idx : Nat) (m : HeaderMap),
    1 ≤ idx → (∀ x ∈ m.map Prod.snd, 1 ≤ x) →
    ∀ x ∈ (buildHM cells idx m).map Prod.snd, 1 ≤ x := by
  intro cells
  induction cells with
  | nil => intro idx m _ hm x hx; exact hm x hx
  | cons c rest ih =>
    intro idx m hidx hm x hx
    cases c with
    | none => exact ih (idx + 1) m (by omega) hm x (by simpa [buildHM] using hx)
    | some v =>
      refine ih (idx + 1) _ (by omega) ?_ x (by simpa [buildHM] using hx)
      intro y hy
      rcases mem_vals_alSet hy with h2 | h2
      · exact hm y h2
      · omega

theorem appendMissing_vals_pos : ∀ (names : List String) (m : HeaderMap)
    (last : Nat) (s : Sheet), (∀ x ∈ m.map Prod.snd, 1 ≤ x) →
    ∀ x ∈ ((appendMissing names m last s).1).map Prod.snd, 1 ≤ x := by
  intro names
  induction names with
  | nil => intro m last s hm x hx; exact hm x hx
  | cons n rest ih =>
    intro m last s hm x hx
    unfold appendMissing at hx
    by_cases h : alHasKey m n = true
    · rw [if_pos h] at hx
      exact ih m last s hm x hx
    · rw [if_neg h] at hx
      refine ih _ (last + 1) _ ?_ x hx
      intro y hy
      rcases mem_vals_alSet hy with h2 | h2
      · exact hm y h2
      · omega

theorem ensure_vals_pos (s : Sheet) :
    ∀ x ∈ (((ensure_sheet_headers s).1).map Prod.snd), 1 ≤ x := by
  by_cases hfresh : s.maxRow = 1 ∧ s.maxCol = 1 ∧
    (headerCellsList s).getD 0 none = none
  · simp only [ensure_sheet_headers, if_pos hfresh]
    decide
  · simp only [ensure_sheet_headers, if_neg hfresh]
    exact appendMissing_vals_pos APPOINTMENTS_HEADERS _ _ s
      (buildHM_vals_pos (headerCellsList s) 1 [] (by norm_num) (by simp))

theorem inPlaceWrite_cons (c : Cand) (uv : RowMap) (p : String × Nat)
    (rest : HeaderMap) (sh : Sheet) :
    inPlaceWrite c uv (p :: rest) sh = inPlaceWrite c uv rest
      (if p.1 = "Logged At" then sh
      else
        match alGet uv p.1 with
        | some (some v) => sh.setCell c.row p.2 (some v)
        | _ => sh) := by
  unfold inPlaceWrite
  rw [List.foldl_cons]

theorem inPlaceWrite_name : ∀ (hm : HeaderMap) (c : Cand) (uv : RowMap) (sh : Sheet),
    (inPlaceWrite c uv hm sh).name = sh.name := by
  intro hm
  induction hm with
  | nil => intro c uv sh; rfl
  | cons p rest ih =>
    intro c uv sh
    rw [inPlaceWrite_cons, ih]
    split_ifs
    · rfl
    · cases alGet uv p.1 with
      | none => rfl
      | some cell =>
        cases cell with
        | none => rfl
        | some v => rfl

theorem inPlaceWrite_preserve : ∀ (hm : HeaderMap) (c : Cand) (uv : RowMap)
    (sh : Sheet) (col : Nat), 1 ≤ c.row → 1 ≤ col →
    (∀ p ∈ hm, p.1 ≠ "Logged At" → p.2 ≠ col) → (∀ p ∈ hm, 1 ≤ p.2) →
    (inPlaceWrite c uv hm sh).cellVal c.row col = sh.cellVal c.row col := by
  intro hm
  induction hm with
  | nil => intros; rfl
  | cons p rest ih =>
    intro c uv sh col hr hcol hne hpos
    rw [inPlaceWrite_cons, ih _ _ _ _ hr hcol (fun q hq => hne q (by simp [hq]))
      (fun q hq => hpos q (by simp [hq]))]
    split_ifs with hla
    · rfl
    · cases hg : alGet uv p.1 with
      | none => rfl
      | some cell =>
        cases cell with
        | none => rfl
        | some v =>
          exact cellVal_setCell_ne sh (some v) hr hr (hpos p (by simp)) hcol
            (Or.inr (hne p (by simp) hla))

theorem relocate_getLast (wb2 : Workbook) (nsn : String) (c : Cand) (uv : RowMap)
    (hnsn : nsn ≠ c.sheet) :
    ((relocate wb2 nsn c uv).getSheet nsn).cells.getLast? = some (targetRow uv) := by
  unfold relocate
  have hmem3 : nsn ∈ (if nsn ∈ wb2.sheetnames then wb2
      else wb2.createSheet nsn).sheetnames := by
    split_ifs with hin
    · exact hin
    · rw [sheetnames_createSheet]
      simp
  set wb3 := if nsn ∈ wb2.sheetnames then wb2 else wb2.createSheet nsn with hwb3
  set tgt := ((ensure_sheet_headers (wb3.getSheet nsn)).2).appendRow (targetRow uv)
    with htgt
  have htname : tgt.name = nsn := by
    rw [htgt, appendRow_name, ensure_name, getSheet_name]
  have hsrcname : ((wb3.setSheet tgt).getSheet c.sheet).name = c.sheet :=
    getSheet_name _ _
  rw [getSheet_setSheet_ne _ _ _ (by rw [deleteRow_name, hsrcname]; exact hnsn),
    getSheet_setSheet_self_of_name wb3 tgt nsn htname hmem3, htgt, appendRow_getLast]

theorem relocate_source (wb2 : Workbook) (nsn : String) (c : Cand) (uv : RowMap)
    (hnsn : nsn ≠ c.sheet) (hmem2 : c.sheet ∈ wb2.sheetnames) :
    (relocate wb2 nsn c uv).getSheet c.sheet =
      (wb2.getSheet c.sheet).deleteRow c.row := by
  unfold relocate
  set wb3 := if nsn ∈ wb2.sheetnames then wb2 else wb2.createSheet nsn with hwb3
  set tgt := ((ensure_sheet_headers (wb3.getSheet nsn)).2).appendRow (targetRow uv)
    with htgt
  have htname : tgt.name = nsn := by
    rw [htgt, appendRow_name, ensure_name, getSheet_name]
  have hwb3get : wb3.getSheet c.sheet = wb2.getSheet c.sheet := by
    rw [hwb3]
    split_ifs with hin
    · rfl
    · exact getSheet_createSheet_ne wb2 nsn c.sheet (Ne.symm hnsn)
  have hmem4 : c.sheet ∈ (wb3.setSheet tgt).sheetnames := by
    rw [sheetnames_setSheet, hwb3]
    split_ifs with hin
    · exact hmem2
    · rw [sheetnames_createSheet]
      exact List.mem_append_left _ hmem2
  have hsrc : (wb3.setSheet tgt).getSheet c.sheet = wb2.getSheet c.sheet := by
    rw [getSheet_setSheet_ne _ _ _ (by rw [htname]; exact Ne.symm hnsn), hwb3get]
  have hdelname : ((((wb3.setSheet tgt).getSheet c.sheet)).deleteRow c.row).name =
      c.sheet := by
    rw [deleteRow_name, getSheet_name]
  rw [getSheet_setSheet_self_of_name _ _ c.sheet hdelname hmem4, hsrc]

/-! ## Claim C10 -/

/-- C10: `update_appointment` never changes the Logged At value of the
matched record: an in-place update (destination sheet equal to the matched
sheet) skips the Logged At column when writing merged values, so the cell in
the Logged At column of the matched row is unchanged; a relocation copies
the row's original Logged At value unchanged into the first position (the
Logged At column of the schema) of the row appended to the destination
worksheet. -/
theorem c10_logged_at_preserved (env : Env) (a : UArgs) (wb1 : Workbook) (c : Cand)
    (hmem : c.sheet ∈ wb1.sheetnames) (hsave : env.saveErr = none)
    (hrow : 1 ≤ c.row) :
    ((newSheetName env a c.sheet = c.sheet →
      ∀ col, alGet (ensure_sheet_headers (wb1.getSheet c.sheet)).1 "Logged At" =
          some col →
      ∃ wbF, applyUpdate env a wb1 c =
          .ok (.updated env.path c.sheet false, some wbF) ∧
        (wbF.getSheet c.sheet).cellVal c.row col =
          ((ensure_sheet_headers (wb1.getSheet c.sheet)).2).cellVal c.row col) ∧
     (newSheetName env a c.sheet ≠ c.sheet →
      ∃ wbF, applyUpdate env a wb1 c =
          .ok (.updated env.path (newSheetName env a c.sheet) true, some wbF) ∧
        (wbF.getSheet (newSheetName env a c.sheet)).cells.getLast? =
          some (targetRow (mergeUpdates env a c.rv)) ∧
        (targetRow (mergeUpdates env a c.rv)).head? =
          some ((alGet c.rv "Logged At").getD (some "")))) := by
  have hes : (ensure_sheet_headers (wb1.getSheet c.sheet)).2.name = c.sheet := by
    rw [ensure_name, getSheet_name]
  have hwb2get : (wb1.setSheet (ensure_sheet_headers (wb1.getSheet c.sheet)).2).getSheet
      c.sheet = (ensure_sheet_headers (wb1.getSheet c.sheet)).2 :=
    getSheet_setSheet_self_of_name wb1 _ c.sheet hes hmem
  have hmem2 : c.sheet ∈
      (wb1.setSheet (ensure_sheet_headers (wb1.getSheet c.sheet)).2).sheetnames := by
    rw [sheetnames_setSheet]
    exact hmem
  constructor
  · intro hnew col hcol
    refine ⟨(wb1.setSheet (ensure_sheet_headers (wb1.getSheet c.sheet)).2).setSheet
      (inPlaceWrite c (mergeUpdates env a c.rv)
        (ensure_sheet_headers (wb1.getSheet c.sheet)).1
        ((wb1.setSheet (ensure_sheet_headers (wb1.getSheet c.sheet)).2).getSheet
          c.sheet)), ?_, ?_⟩
    · simp only [applyUpdate, hnew]
      rw [if_neg (fun hc => hc rfl), hsave, decide_eq_false (fun hc => hc rfl)]
    · have hcolpos : 1 ≤ col :=
        ensure_vals_pos (wb1.getSheet c.sheet) col
          (List.mem_map_of_mem Prod.snd (alGet_mem hcol))
      have hipname : (inPlaceWrite c (mergeUpdates env a c.rv)
          (ensure_sheet_headers (wb1.getSheet c.sheet)).1
          ((wb1.setSheet (ensure_sheet_headers (wb1.getSheet c.sheet)).2).getSheet
            c.sheet)).name = c.sheet := by
        rw [inPlaceWrite_name, getSheet_name]
      rw [getSheet_setSheet_self_of_name _ _ c.sheet hipname hmem2]
      rw [inPlaceWrite_preserve _ _ _ _ _ hrow hcolpos ?_
        (fun p hp => ensure_vals_pos (wb1.getSheet c.sheet) p.2
          (List.mem_map_of_mem Prod.snd hp)), hwb2get]
      intro p hp hpla
      intro hc
      have hinj := List.inj_on_of_nodup_map (ensure_inv (wb1.getSheet c.sheet)).2
      have hpe := hinj hp (alGet_mem hcol) (by simpa using hc)
      exact hpla (congrArg Prod.fst hpe)
  · intro hnew
    refine ⟨relocate (wb1.setSheet (ensure_sheet_headers (wb1.getSheet c.sheet)).2)
      (newSheetName env a c.sheet) c (mergeUpdates env a c.rv), ?_, ?_, ?_⟩
    · simp only [applyUpdate]
      rw [if_pos hnew, hsave, decide_eq_true hnew]
    · exact relocate_getLast _ _ _ _ hnew
    · have hhead : (targetRow (mergeUpdates env a c.rv)).head? =
          some ((alGet (mergeUpdates env a c.rv) "Logged At").getD (some "")) := rfl
      rw [hhead, mergeUpdates_get_LA]

/-- Witness for C10: an in-place reschedule of the first Alice row leaves
the Logged At column (column 1) of the matched row untouched. -/
theorem c10_witness :
    ∃ wbF, applyUpdate envSingle argsResched wbTwo candTwoA =
        .ok (.updated envSingle.path candTwoA.sheet false, some wbF) ∧
      (wbF.getSheet candTwoA.sheet).cellVal candTwoA.row 1 =
        ((ensure_sheet_headers (wbTwo.getSheet candTwoA.sheet)).2).cellVal
          candTwoA.row 1 :=
  (c10_logged_at_preserved envSingle argsResched wbTwo candTwoA (by decide) rfl
    (by decide)).1 (by decide) 1 (by decide)
